import Mathlib

/-!
Verification of the WebM chunker (`src/chunk.rs` of the webmetro repository).

The chunker is a pull-driven state machine converting a stream of WebM/EBML
elements into tagged chunks (`Headers`, `ClusterHead`, `ClusterBody`).  We give
a shallow embedding of `chunk.rs`:

* `u64` values are `Nat` with explicit `% 2 ^ 64` where the source performs
  (release-mode, i.e. wrapping) machine arithmetic;
* the element *byte encoder* (`encode_webm_element`, module `webm`, not part of
  the sources under verification) is external; the chunker's control flow
  inspects a buffer only through its length (`buffer.get_ref().len()`), so
  buffers are embedded by their length and the encoder by a size function
  modelled from the spec;
* the event source is embedded as a finite list of elements (each
  `Ready(Some(e))` in order, with the end of the list standing for
  `Ready(None)`); `NotReady` and upstream errors are pure pass-throughs in the
  source and are not modelled.
-/

namespace Webmetro

/-- `2 ^ 64`, the modulus of Rust `u64` arithmetic. -/
def U64 : Nat := 2 ^ 64

/-- Modelled from the spec: the standard EBML layout stores an unsigned
integer in its minimal number of octets (at least one, at most eight for a
`u64`).  The byte-level encoder itself is an external collaborator (§1). -/
def uintOctets (n : Nat) : Nat :=
  if n < 2 ^ 8 then 1
  else if n < 2 ^ 16 then 2
  else if n < 2 ^ 24 then 3
  else if n < 2 ^ 32 then 4
  else if n < 2 ^ 40 then 5
  else if n < 2 ^ 48 then 6
  else if n < 2 ^ 56 then 7
  else 8

/-- Modelled from the spec: size of the cluster-open marker (4-byte element id
plus a 1-byte unknown-size marker, per the standard EBML layout). -/
def clusterOpenSize : Nat := 5

/-- Modelled from the spec: size of an encoded `Timecode` element (1-byte id,
1-byte length, minimal-octet payload). -/
def timecodeElementSize (t : Nat) : Nat := 2 + uintOctets t

/-- The fields of a `SimpleBlock` read by the chunker (`flags: u8`,
`timecode: i16`), plus the size of the block element's encoding, which is
determined by the external encoder and hence carried as data. -/
structure SimpleBlock where
  flags : Nat
  timecode : Int
  encSize : Nat
deriving DecidableEq, Repr

/-- Modelled from the spec (§3): the element alphabet consumed by the chunker.
The element type lives in the external `webm` module; the variants are those
the chunker's `match` distinguishes, with `tracks` standing for the "any other
element" case (carrying the size of its encoding, which the external encoder
determines). -/
inductive WebmElement where
  | ebmlHead
  | void
  | segment
  | info
  | tracks (encSize : Nat)
  | cluster
  | timecode (t : Nat)
  | simpleBlock (b : SimpleBlock)
  | unknown (id : Nat)
deriving DecidableEq, Repr

/-- Modelled from the spec: the number of bytes the external encoder writes
for one element.  Fixed elements get their fixed sizes from the standard EBML
layout; payload-carrying elements carry their own encoded size. -/
def encodeSize : WebmElement → Nat
  | .ebmlHead => 31
  | .void => 2
  | .segment => 5
  | .info => 5
  | .tracks n => n
  | .cluster => clusterOpenSize
  | .timecode t => timecodeElementSize (t % U64)
  | .simpleBlock b => b.encSize
  | .unknown _ => 2

/-- Rust `timecode as u64` for `timecode: i16`: two's-complement sign
extension into the `u64` domain. -/
def i16ToU64 (x : Int) : Nat := (x % (U64 : Int)).toNat

/-- `ClusterHead` (`chunk.rs:11-19`).  The `bytes: [u8;16]` scratch content is
produced by the external encoder; the chunker tracks its valid prefix length
in `bytes_used`, which we keep. -/
structure ClusterHead where
  keyframe : Bool
  start : Nat
  «end» : Nat
  bytes_used : Nat
deriving DecidableEq, Repr

/-- `ClusterHead::update_timecode` (`chunk.rs:33-42`): `delta = end - start`
(wrapping u64 subtraction), `start = timecode`, `end = start + delta`
(wrapping u64 addition), then the scratch is re-encoded as a cluster-open
marker followed by a `Timecode` element and `bytes_used` set to the cursor
position. -/
def ClusterHead.update_timecode (h : ClusterHead) (timecode : Nat) : ClusterHead :=
  let t := timecode % U64
  let delta := (h.«end» + U64 - h.start) % U64
  { h with
      start := t
      «end» := (t + delta) % U64
      bytes_used := clusterOpenSize + timecodeElementSize t }

/-- `ClusterHead::new` (`chunk.rs:22-32`): all-zero head, then
`update_timecode`. -/
def ClusterHead.new (timecode : Nat) : ClusterHead :=
  ClusterHead.update_timecode ⟨false, 0, 0, 0⟩ timecode

/-- `ClusterHead::observe_simpleblock_timecode` (`chunk.rs:43-48`):
`absolute_timecode = start + (timecode as u64)` (wrapping u64 arithmetic);
`end` is set to it only when it strictly exceeds `start`. -/
def ClusterHead.observe_simpleblock_timecode (h : ClusterHead) (timecode : Int) : ClusterHead :=
  let absolute_timecode := (h.start + i16ToU64 timecode) % U64
  if h.start < absolute_timecode then { h with «end» := absolute_timecode } else h

/-- The error constructor used by the chunker (`WebmetroError::ResourcesExceeded`,
`chunk.rs:111`).  Other variants of `WebmetroError` wrap upstream errors, which
do not arise in this embedding. -/
inductive WebmetroError where
  | resourcesExceeded
deriving DecidableEq, Repr

/-- `Chunk` (`chunk.rs:57-66`); byte payloads are embedded by their length. -/
inductive Chunk where
  | headers (bytes : Nat)
  | clusterHead (h : ClusterHead)
  | clusterBody (bytes : Nat)
deriving DecidableEq, Repr

/-- `ChunkerState` (`chunk.rs:78-90`); buffers embedded by their length. -/
inductive ChunkerState where
  | buildingHeader (buffer : Nat)
  | buildingCluster (head : ClusterHead) (buffer : Nat)
  | emittingClusterBody (body : Nat)
  | emittingClusterBodyBeforeNewHeader (body : Nat) (newHeader : Nat)
  | emittingFinalClusterBody (body : Nat)
  | «end»
deriving DecidableEq, Repr

/-- `encode` (`chunk.rs:108-116`): when a limit is configured and
`limit <= buffer.len()` already holds, fail with `ResourcesExceeded` without
encoding; otherwise the external encoder appends the element's encoding
(writing to a `Vec`-backed cursor cannot fail). -/
def encode (element : WebmElement) (buffer : Nat) (limit : Option Nat) :
    Except WebmetroError Nat :=
  match limit with
  | some l => if l ≤ buffer then .error .resourcesExceeded else .ok (buffer + encodeSize element)
  | none => .ok (buffer + encodeSize element)

/-- `WebmChunker::poll` (`chunk.rs:124-253`).  One pull: the source loop runs
until it sets a return value, consuming input events along the way.  The
result is the returned value (`Ok none` standing for `Ready(None)`, `Ok (some c)`
for `Ready(Some(c))`), the state left behind, and the unconsumed input. -/
def poll : ChunkerState → List WebmElement → Option Nat →
    Except WebmetroError (Option Chunk) × ChunkerState × List WebmElement
  | .buildingHeader buffer, [], _ =>
      (.ok none, .buildingHeader buffer, [])
  | .buildingHeader buffer, .cluster :: rest, _ =>
      (.ok (some (.headers buffer)), .buildingCluster (ClusterHead.new 0) 0, rest)
  | .buildingHeader buffer, .info :: rest, limit =>
      poll (.buildingHeader buffer) rest limit
  | .buildingHeader buffer, .void :: rest, limit =>
      poll (.buildingHeader buffer) rest limit
  | .buildingHeader buffer, .unknown _ :: rest, limit =>
      poll (.buildingHeader buffer) rest limit
  | .buildingHeader buffer, element :: rest, limit =>
      match encode element buffer limit with
      | .ok buffer2 => poll (.buildingHeader buffer2) rest limit
      | .error err => (.error err, .«end», rest)
  | .buildingCluster cluster_head buffer, [], _ =>
      (.ok (some (.clusterHead cluster_head)), .emittingFinalClusterBody buffer, [])
  | .buildingCluster cluster_head buffer, .ebmlHead :: rest, limit =>
      (match encode .ebmlHead 0 limit with
        | .ok newHeader =>
            (.ok (some (.clusterHead cluster_head)),
              .emittingClusterBodyBeforeNewHeader buffer newHeader, rest)
        | .error err => (.error err, .«end», rest))
  | .buildingCluster cluster_head buffer, .segment :: rest, limit =>
      (match encode .segment 0 limit with
        | .ok newHeader =>
            (.ok (some (.clusterHead cluster_head)),
              .emittingClusterBodyBeforeNewHeader buffer newHeader, rest)
        | .error err => (.error err, .«end», rest))
  | .buildingCluster cluster_head buffer, .cluster :: rest, _ =>
      (.ok (some (.clusterHead cluster_head)), .emittingClusterBody buffer, rest)
  | .buildingCluster cluster_head buffer, .timecode t :: rest, limit =>
      poll (.buildingCluster (cluster_head.update_timecode t) buffer) rest limit
  | .buildingCluster cluster_head buffer, .simpleBlock block :: rest, limit =>
      let h1 := if block.flags &&& 128 ≠ 0 then { cluster_head with keyframe := true }
                else cluster_head
      let h2 := h1.observe_simpleblock_timecode block.timecode
      (match encode (.simpleBlock block) buffer limit with
        | .ok buffer2 => poll (.buildingCluster h2 buffer2) rest limit
        | .error err => (.error err, .«end», rest))
  | .buildingCluster cluster_head buffer, .info :: rest, limit =>
      poll (.buildingCluster cluster_head buffer) rest limit
  | .buildingCluster cluster_head buffer, .void :: rest, limit =>
      poll (.buildingCluster cluster_head buffer) rest limit
  | .buildingCluster cluster_head buffer, .unknown _ :: rest, limit =>
      poll (.buildingCluster cluster_head buffer) rest limit
  | .buildingCluster cluster_head buffer, element :: rest, limit =>
      (match encode element buffer limit with
        | .ok buffer2 => poll (.buildingCluster cluster_head buffer2) rest limit
        | .error err => (.error err, .«end», rest))
  | .emittingClusterBody body, input, _ =>
      (.ok (some (.clusterBody body)), .buildingCluster (ClusterHead.new 0) 0, input)
  | .emittingClusterBodyBeforeNewHeader body newHeader, input, _ =>
      (.ok (some (.clusterBody body)), .buildingHeader newHeader, input)
  | .emittingFinalClusterBody body, input, _ =>
      (.ok (some (.clusterBody body)), .«end», input)
  | .«end», input, _ =>
      (.ok none, .«end», input)

/-- Rank used to justify that repeated pulls make progress: states that emit
without consuming input always step to a lower-ranked state. -/
def stateRank : ChunkerState → Nat
  | .«end» => 0
  | .emittingFinalClusterBody _ => 1
  | .buildingHeader _ => 2
  | .buildingCluster _ _ => 2
  | .emittingClusterBody _ => 3
  | .emittingClusterBodyBeforeNewHeader _ _ => 3

/-- Decreasing measure for a chunker run. -/
def chunkerMeasure (st : ChunkerState) (input : List WebmElement) : Nat :=
  4 * input.length + stateRank st

/-- Pull the chunker repeatedly (with fuel), collecting everything it emits
until it reports `Ready(None)` or an error; also return the final state and
unconsumed input. -/
def runFuel : Nat → ChunkerState → List WebmElement → Option Nat →
    List (Except WebmetroError Chunk) × ChunkerState × List WebmElement
  | 0, st, input, _ => ([], st, input)
  | fuel + 1, st, input, limit =>
      match poll st input limit with
      | (.ok none, st2, rest) => ([], st2, rest)
      | (.error err, st2, rest) => ([.error err], st2, rest)
      | (.ok (some c), st2, rest) =>
          let r := runFuel fuel st2 rest limit
          (.ok c :: r.1, r.2.1, r.2.2)

/-- A complete chunker run: `chunkerMeasure` strictly decreases at every
emission (`poll_measure` below), so `chunkerMeasure + 1` pulls always reach
`Ready(None)` or an error. -/
def runChunker (st : ChunkerState) (input : List WebmElement) (limit : Option Nat) :
    List (Except WebmetroError Chunk) × ChunkerState × List WebmElement :=
  runFuel (chunkerMeasure st input + 1) st input limit

/-- `WebmStream::chunk_webm` (`chunk.rs:256-264`) followed by a complete run:
the chunker starts in `BuildingHeader` with an empty buffer; `limit` is the
configured soft limit (`with_soft_limit`, `None` if unconfigured). -/
def chunk_webm (input : List WebmElement) (limit : Option Nat) :
    List (Except WebmetroError Chunk) × ChunkerState × List WebmElement :=
  runChunker (.buildingHeader 0) input limit

/-- The successfully emitted chunks of a run (an error, if any, is last). -/
def okChunks (l : List (Except WebmetroError Chunk)) : List Chunk :=
  l.filterMap Except.toOption

/-- Decidable equality for `Except` results (not provided by the core
library), so that concrete runs can be checked by `decide`. -/
instance {e a : Type} [DecidableEq e] [DecidableEq a] : DecidableEq (Except e a) := fun x y =>
  match x, y with
  | .error u, .error v =>
      if h : u = v then .isTrue (congrArg Except.error h)
      else .isFalse (fun hh => h (Except.error.inj hh))
  | .ok u, .ok v =>
      if h : u = v then .isTrue (congrArg Except.ok h)
      else .isFalse (fun hh => h (Except.ok.inj hh))
  | .error _, .ok _ => .isFalse (fun hh => Except.noConfusion hh)
  | .ok _, .error _ => .isFalse (fun hh => Except.noConfusion hh)

theorem chunkerMeasure_lt_cons (st st2 : ChunkerState) (e : WebmElement)
    (tail : List WebmElement) (h : stateRank st2 < stateRank st + 4) :
    chunkerMeasure st2 tail < chunkerMeasure st (e :: tail) := by
  simp only [chunkerMeasure, List.length_cons]
  omega

theorem chunkerMeasure_lt_rank (st st2 : ChunkerState) (input : List WebmElement)
    (h : stateRank st2 < stateRank st) :
    chunkerMeasure st2 input < chunkerMeasure st input := by
  simp only [chunkerMeasure]
  omega

/-- Progress: every pull that emits a chunk strictly decreases `chunkerMeasure`. -/
theorem poll_measure : ∀ (input : List WebmElement) (st : ChunkerState) (limit : Option Nat)
    (c : Chunk) (st2 : ChunkerState) (rest : List WebmElement),
    poll st input limit = (.ok (some c), st2, rest) →
    chunkerMeasure st2 rest < chunkerMeasure st input := by
  intro input
  induction input with
  | nil =>
    intro st limit c st2 rest h
    cases st <;> simp only [poll, Prod.mk.injEq] at h <;>
      obtain ⟨h1, rfl, rfl⟩ := h <;>
      simp_all [chunkerMeasure, stateRank]
  | cons e tail ih =>
    intro st limit c st2 rest h
    cases st with
    | buildingHeader buffer =>
      cases e <;> simp only [poll, Prod.mk.injEq] at h
      case cluster =>
        obtain ⟨h1, rfl, rfl⟩ := h
        exact chunkerMeasure_lt_cons _ _ _ _ (by simp [stateRank])
      case info | void | unknown =>
        exact (ih _ _ _ _ _ h).trans (chunkerMeasure_lt_cons _ _ _ _ (by simp [stateRank]))
      case ebmlHead | segment | tracks | timecode | simpleBlock =>
        split at h
        · exact (ih _ _ _ _ _ h).trans (chunkerMeasure_lt_cons _ _ _ _ (by simp [stateRank]))
        · simp [Prod.mk.injEq] at h
    | buildingCluster cluster_head buffer =>
      cases e <;> simp only [poll, Prod.mk.injEq] at h
      case cluster =>
        obtain ⟨h1, rfl, rfl⟩ := h
        exact chunkerMeasure_lt_cons _ _ _ _ (by simp [stateRank])
      case ebmlHead | segment =>
        split at h
        · obtain ⟨h1, rfl, rfl⟩ := h
          exact chunkerMeasure_lt_cons _ _ _ _ (by simp [stateRank])
        · simp [Prod.mk.injEq] at h
      case timecode | info | void | unknown =>
        exact (ih _ _ _ _ _ h).trans (chunkerMeasure_lt_cons _ _ _ _ (by simp [stateRank]))
      case simpleBlock | tracks =>
        split at h
        · exact (ih _ _ _ _ _ h).trans (chunkerMeasure_lt_cons _ _ _ _ (by simp [stateRank]))
        · simp [Prod.mk.injEq] at h
    | emittingClusterBody body =>
      simp only [poll, Prod.mk.injEq] at h
      obtain ⟨h1, rfl, rfl⟩ := h
      exact chunkerMeasure_lt_rank _ _ _ (by simp [stateRank])
    | emittingClusterBodyBeforeNewHeader body newHeader =>
      simp only [poll, Prod.mk.injEq] at h
      obtain ⟨h1, rfl, rfl⟩ := h
      exact chunkerMeasure_lt_rank _ _ _ (by simp [stateRank])
    | emittingFinalClusterBody body =>
      simp only [poll, Prod.mk.injEq] at h
      obtain ⟨h1, rfl, rfl⟩ := h
      exact chunkerMeasure_lt_rank _ _ _ (by simp [stateRank])
    | «end» =>
      simp only [poll, Prod.mk.injEq] at h
      exact absurd h.1 (by simp)

theorem runFuel_none (fuel : Nat) (st : ChunkerState) (input : List WebmElement)
    (limit : Option Nat) (st2 : ChunkerState) (rest : List WebmElement)
    (h : poll st input limit = (.ok none, st2, rest)) :
    runFuel (fuel + 1) st input limit = ([], st2, rest) := by
  simp [runFuel, h]

theorem runFuel_err (fuel : Nat) (st : ChunkerState) (input : List WebmElement)
    (limit : Option Nat) (err : WebmetroError) (st2 : ChunkerState)
    (rest : List WebmElement)
    (h : poll st input limit = (.error err, st2, rest)) :
    runFuel (fuel + 1) st input limit = ([.error err], st2, rest) := by
  simp [runFuel, h]

theorem runFuel_emit (fuel : Nat) (st : ChunkerState) (input : List WebmElement)
    (limit : Option Nat) (c : Chunk) (st2 : ChunkerState) (rest : List WebmElement)
    (h : poll st input limit = (.ok (some c), st2, rest)) :
    runFuel (fuel + 1) st input limit =
      (.ok c :: (runFuel fuel st2 rest limit).1,
        (runFuel fuel st2 rest limit).2.1, (runFuel fuel st2 rest limit).2.2) := by
  simp [runFuel, h]

/-- With any amount of fuel exceeding `chunkerMeasure`, the run is complete and
the fuel value is irrelevant. -/
theorem runFuel_congr : ∀ (n : Nat) (st : ChunkerState) (input : List WebmElement)
    (limit : Option Nat) (f1 f2 : Nat), chunkerMeasure st input ≤ n →
    chunkerMeasure st input < f1 → chunkerMeasure st input < f2 →
    runFuel f1 st input limit = runFuel f2 st input limit := by
  intro n
  induction n with
  | zero =>
    intro st input limit f1 f2 hn h1 h2
    obtain ⟨g1, rfl⟩ : ∃ g1, f1 = g1 + 1 := ⟨f1 - 1, by omega⟩
    obtain ⟨g2, rfl⟩ : ∃ g2, f2 = g2 + 1 := ⟨f2 - 1, by omega⟩
    rcases hp : poll st input limit with ⟨res, st2, rest⟩
    match res, hp with
    | .ok none, hp => rw [runFuel_none _ _ _ _ _ _ hp, runFuel_none _ _ _ _ _ _ hp]
    | .error err, hp => rw [runFuel_err _ _ _ _ _ _ _ hp, runFuel_err _ _ _ _ _ _ _ hp]
    | .ok (some c), hp => exact absurd (poll_measure _ _ _ _ _ _ hp) (by omega)
  | succ n ih =>
    intro st input limit f1 f2 hn h1 h2
    obtain ⟨g1, rfl⟩ : ∃ g1, f1 = g1 + 1 := ⟨f1 - 1, by omega⟩
    obtain ⟨g2, rfl⟩ : ∃ g2, f2 = g2 + 1 := ⟨f2 - 1, by omega⟩
    rcases hp : poll st input limit with ⟨res, st2, rest⟩
    match res, hp with
    | .ok none, hp => rw [runFuel_none _ _ _ _ _ _ hp, runFuel_none _ _ _ _ _ _ hp]
    | .error err, hp => rw [runFuel_err _ _ _ _ _ _ _ hp, runFuel_err _ _ _ _ _ _ _ hp]
    | .ok (some c), hp =>
      have hm := poll_measure _ _ _ _ _ _ hp
      rw [runFuel_emit _ _ _ _ _ _ _ hp, runFuel_emit _ _ _ _ _ _ _ hp,
        ih st2 rest limit g1 g2 (by omega) (by omega) (by omega)]

/-- The one-step unfolding of a complete chunker run. -/
theorem runChunker_poll (st : ChunkerState) (input : List WebmElement)
    (limit : Option Nat) :
    runChunker st input limit =
      match poll st input limit with
      | (.ok none, st2, rest) => ([], st2, rest)
      | (.error err, st2, rest) => ([.error err], st2, rest)
      | (.ok (some c), st2, rest) =>
          (.ok c :: (runChunker st2 rest limit).1,
            (runChunker st2 rest limit).2.1, (runChunker st2 rest limit).2.2) := by
  rcases hp : poll st input limit with ⟨res, st2, rest⟩
  match res, hp with
  | .ok none, hp => rw [runChunker, runFuel_none _ _ _ _ _ _ hp]
  | .error err, hp => rw [runChunker, runFuel_err _ _ _ _ _ _ _ hp]
  | .ok (some c), hp =>
    have hm := poll_measure _ _ _ _ _ _ hp
    rw [runChunker, runFuel_emit _ _ _ _ _ _ _ hp]
    rw [runFuel_congr (chunkerMeasure st2 rest) st2 rest limit
      (chunkerMeasure st input) (chunkerMeasure st2 rest + 1) (le_refl _) hm (by omega)]
    rfl

theorem okChunks_nil : okChunks [] = [] := rfl

theorem okChunks_ok (c : Chunk) (l : List (Except WebmetroError Chunk)) :
    okChunks (.ok c :: l) = c :: okChunks l := by
  simp [okChunks, Except.toOption]

theorem okChunks_err (e : WebmetroError) (l : List (Except WebmetroError Chunk)) :
    okChunks (.error e :: l) = okChunks l := by
  simp [okChunks, Except.toOption]

/-- States of the chunk-sequence grammar
`(Headers (ClusterHead ClusterBody)* )*`: before a segment, after its
`Headers`, between a `ClusterHead` and its `ClusterBody`, and after a
complete `(ClusterHead, ClusterBody)` pair (where a restart may open a new
segment with a fresh `Headers`). -/
inductive ShapeSt where
  | segStart
  | afterHeaders
  | afterClusterHead
  | betweenPairs
deriving DecidableEq, Repr

def shapeStep : ShapeSt → Chunk → Option ShapeSt
  | .segStart, .headers _ => some .afterHeaders
  | .afterHeaders, .clusterHead _ => some .afterClusterHead
  | .afterClusterHead, .clusterBody _ => some .betweenPairs
  | .betweenPairs, .clusterHead _ => some .afterClusterHead
  | .betweenPairs, .headers _ => some .afterHeaders
  | _, _ => none

/-- A dangling `ClusterHead` (no following `ClusterBody`) is not accepted. -/
def shapeAccept : ShapeSt → Bool
  | .afterClusterHead => false
  | _ => true

/-- The chunk sequence is accepted by the grammar starting from `s`. -/
def shapeOk : ShapeSt → List Chunk → Bool
  | s, [] => shapeAccept s
  | s, c :: l =>
      match shapeStep s c with
      | some s2 => shapeOk s2 l
      | none => false

theorem shapeOk_afterHeaders_le (l : List Chunk) (h : shapeOk .afterHeaders l = true) :
    shapeOk .betweenPairs l = true := by
  cases l with
  | nil => rfl
  | cons c t => cases c <;> simpa [shapeOk, shapeStep] using h

theorem shapeOk_segStart_le (l : List Chunk) (h : shapeOk .segStart l = true) :
    shapeOk .betweenPairs l = true := by
  cases l with
  | nil => rfl
  | cons c t => cases c <;> simpa [shapeOk, shapeStep] using h

/-- The grammar state corresponding to each chunker state: what the chunker
will emit next from that state. -/
def stShape : ChunkerState → ShapeSt
  | .buildingHeader _ => .segStart
  | .buildingCluster _ _ => .afterHeaders
  | .emittingClusterBody _ => .afterClusterHead
  | .emittingClusterBodyBeforeNewHeader _ _ => .afterClusterHead
  | .emittingFinalClusterBody _ => .afterClusterHead
  | .«end» => .betweenPairs

/-- Invariant: from any chunker state, the chunks a complete run emits are
accepted by the chunk-sequence grammar from the corresponding state. -/
theorem runFuel_skip (fuel : Nat) (st : ChunkerState) (input : List WebmElement)
    (st2 : ChunkerState) (input2 : List WebmElement) (limit : Option Nat)
    (h : poll st input limit = poll st2 input2 limit) :
    runFuel (fuel + 1) st input limit = runFuel (fuel + 1) st2 input2 limit := by
  simp only [runFuel, h]

theorem shape_aux : ∀ (n : Nat) (st : ChunkerState) (input : List WebmElement)
    (limit : Option Nat) (fuel : Nat), chunkerMeasure st input ≤ n →
    chunkerMeasure st input < fuel →
    shapeOk (stShape st) (okChunks (runFuel fuel st input limit).1) = true := by
  intro n
  induction n with
  | zero =>
    intro st input limit fuel hn hf
    obtain ⟨g, rfl⟩ : ∃ g, fuel = g + 1 := ⟨fuel - 1, by omega⟩
    have hrank : stateRank st = 0 ∧ input.length = 0 := by
      simp only [chunkerMeasure] at hn
      omega
    have hinput : input = [] := List.length_eq_zero.mp hrank.2
    subst hinput
    have hr := hrank.1
    cases st <;> simp [stateRank] at hr
    have hp : poll ChunkerState.«end» [] limit = (.ok none, .«end», []) := by
      simp [poll]
    rw [runFuel_none _ _ _ _ _ _ hp]
    rfl
  | succ n ih =>
    intro st input limit fuel hn hf
    obtain ⟨g, rfl⟩ : ∃ g, fuel = g + 1 := ⟨fuel - 1, by omega⟩
    cases st with
    | «end» =>
      have hp : poll ChunkerState.«end» input limit = (.ok none, .«end», input) := by
        simp [poll]
      rw [runFuel_none _ _ _ _ _ _ hp]
      rfl
    | emittingFinalClusterBody body =>
      have hp : poll (ChunkerState.emittingFinalClusterBody body) input limit =
          (.ok (some (.clusterBody body)), .«end», input) := by
        simp [poll]
      rw [runFuel_emit _ _ _ _ _ _ _ hp]
      simp only [okChunks_ok, stShape, shapeOk, shapeStep]
      exact ih ChunkerState.«end» input limit g
        (by simp only [chunkerMeasure, stateRank] at hn hf ⊢; omega)
        (by simp only [chunkerMeasure, stateRank] at hn hf ⊢; omega)
    | emittingClusterBody body =>
      have hp : poll (ChunkerState.emittingClusterBody body) input limit =
          (.ok (some (.clusterBody body)), .buildingCluster (ClusterHead.new 0) 0, input) := by
        simp [poll]
      rw [runFuel_emit _ _ _ _ _ _ _ hp]
      simp only [okChunks_ok, stShape, shapeOk, shapeStep]
      apply shapeOk_afterHeaders_le
      exact ih (.buildingCluster (ClusterHead.new 0) 0) input limit g
        (by simp only [chunkerMeasure, stateRank] at hn hf ⊢; omega)
        (by simp only [chunkerMeasure, stateRank] at hn hf ⊢; omega)
    | emittingClusterBodyBeforeNewHeader body newHeader =>
      have hp : poll (ChunkerState.emittingClusterBodyBeforeNewHeader body newHeader)
          input limit =
          (.ok (some (.clusterBody body)), .buildingHeader newHeader, input) := by
        simp [poll]
      rw [runFuel_emit _ _ _ _ _ _ _ hp]
      simp only [okChunks_ok, stShape, shapeOk, shapeStep]
      apply shapeOk_segStart_le
      exact ih (.buildingHeader newHeader) input limit g
        (by simp only [chunkerMeasure, stateRank] at hn hf ⊢; omega)
        (by simp only [chunkerMeasure, stateRank] at hn hf ⊢; omega)
    | buildingHeader buffer =>
      cases input with
      | nil =>
        have hp : poll (ChunkerState.buildingHeader buffer) [] limit =
            (.ok none, .buildingHeader buffer, []) := by
          simp [poll]
        rw [runFuel_none _ _ _ _ _ _ hp]
        rfl
      | cons e tail =>
        cases e with
        | cluster =>
          have hp : poll (ChunkerState.buildingHeader buffer) (.cluster :: tail) limit =
              (.ok (some (.headers buffer)), .buildingCluster (ClusterHead.new 0) 0, tail) := by
            simp [poll]
          rw [runFuel_emit _ _ _ _ _ _ _ hp]
          simp only [okChunks_ok, stShape, shapeOk, shapeStep]
          exact ih (.buildingCluster (ClusterHead.new 0) 0) tail limit g
            (by simp only [chunkerMeasure, stateRank, List.length_cons] at hn hf ⊢; omega)
            (by simp only [chunkerMeasure, stateRank, List.length_cons] at hn hf ⊢; omega)
        | info =>
          rw [runFuel_skip g _ _ (.buildingHeader buffer) tail limit (by simp [poll])]
          exact ih (.buildingHeader buffer) tail limit (g + 1)
            (by simp only [chunkerMeasure, stateRank, List.length_cons] at hn hf ⊢; omega)
            (by simp only [chunkerMeasure, stateRank, List.length_cons] at hn hf ⊢; omega)
        | void =>
          rw [runFuel_skip g _ _ (.buildingHeader buffer) tail limit (by simp [poll])]
          exact ih (.buildingHeader buffer) tail limit (g + 1)
            (by simp only [chunkerMeasure, stateRank, List.length_cons] at hn hf ⊢; omega)
            (by simp only [chunkerMeasure, stateRank, List.length_cons] at hn hf ⊢; omega)
        | unknown id =>
          rw [runFuel_skip g _ _ (.buildingHeader buffer) tail limit (by simp [poll])]
          exact ih (.buildingHeader buffer) tail limit (g + 1)
            (by simp only [chunkerMeasure, stateRank, List.length_cons] at hn hf ⊢; omega)
            (by simp only [chunkerMeasure, stateRank, List.length_cons] at hn hf ⊢; omega)
        | ebmlHead =>
          rcases henc : encode .ebmlHead buffer limit with err | buffer2
          · have hp : poll (ChunkerState.buildingHeader buffer) (.ebmlHead :: tail) limit =
                (.error err, .«end», tail) := by
              simp [poll, henc]
            rw [runFuel_err _ _ _ _ _ _ _ hp]
            rfl
          · rw [runFuel_skip g _ _ (.buildingHeader buffer2) tail limit (by simp [poll, henc])]
            exact ih (.buildingHeader buffer2) tail limit (g + 1)
              (by simp only [chunkerMeasure, stateRank, List.length_cons] at hn hf ⊢; omega)
              (by simp only [chunkerMeasure, stateRank, List.length_cons] at hn hf ⊢; omega)
        | segment =>
          rcases henc : encode .segment buffer limit with err | buffer2
          · have hp : poll (ChunkerState.buildingHeader buffer) (.segment :: tail) limit =
                (.error err, .«end», tail) := by
              simp [poll, henc]
            rw [runFuel_err _ _ _ _ _ _ _ hp]
            rfl
          · rw [runFuel_skip g _ _ (.buildingHeader buffer2) tail limit (by simp [poll, henc])]
            exact ih (.buildingHeader buffer2) tail limit (g + 1)
              (by simp only [chunkerMeasure, stateRank, List.length_cons] at hn hf ⊢; omega)
              (by simp only [chunkerMeasure, stateRank, List.length_cons] at hn hf ⊢; omega)
        | tracks sz =>
          rcases henc : encode (.tracks sz) buffer limit with err | buffer2
          · have hp : poll (ChunkerState.buildingHeader buffer) (.tracks sz :: tail) limit =
                (.error err, .«end», tail) := by
              simp [poll, henc]
            rw [runFuel_err _ _ _ _ _ _ _ hp]
            rfl
          · rw [runFuel_skip g _ _ (.buildingHeader buffer2) tail limit (by simp [poll, henc])]
            exact ih (.buildingHeader buffer2) tail limit (g + 1)
              (by simp only [chunkerMeasure, stateRank, List.length_cons] at hn hf ⊢; omega)
              (by simp only [chunkerMeasure, stateRank, List.length_cons] at hn hf ⊢; omega)
        | timecode t =>
          rcases henc : encode (.timecode t) buffer limit with err | buffer2
          · have hp : poll (ChunkerState.buildingHeader buffer) (.timecode t :: tail) limit =
                (.error err, .«end», tail) := by
              simp [poll, henc]
            rw [runFuel_err _ _ _ _ _ _ _ hp]
            rfl
          · rw [runFuel_skip g _ _ (.buildingHeader buffer2) tail limit (by simp [poll, henc])]
            exact ih (.buildingHeader buffer2) tail limit (g + 1)
              (by simp only [chunkerMeasure, stateRank, List.length_cons] at hn hf ⊢; omega)
              (by simp only [chunkerMeasure, stateRank, List.length_cons] at hn hf ⊢; omega)
        | simpleBlock b =>
          rcases henc : encode (.simpleBlock b) buffer limit with err | buffer2
          · have hp : poll (ChunkerState.buildingHeader buffer) (.simpleBlock b :: tail) limit =
                (.error err, .«end», tail) := by
              simp [poll, henc]
            rw [runFuel_err _ _ _ _ _ _ _ hp]
            rfl
          · rw [runFuel_skip g _ _ (.buildingHeader buffer2) tail limit (by simp [poll, henc])]
            exact ih (.buildingHeader buffer2) tail limit (g + 1)
              (by simp only [chunkerMeasure, stateRank, List.length_cons] at hn hf ⊢; omega)
              (by simp only [chunkerMeasure, stateRank, List.length_cons] at hn hf ⊢; omega)
    | buildingCluster cluster_head buffer =>
      cases input with
      | nil =>
        have hp : poll (ChunkerState.buildingCluster cluster_head buffer) [] limit =
            (.ok (some (.clusterHead cluster_head)), .emittingFinalClusterBody buffer, []) := by
          simp [poll]
        rw [runFuel_emit _ _ _ _ _ _ _ hp]
        simp only [okChunks_ok, stShape, shapeOk, shapeStep]
        exact ih (.emittingFinalClusterBody buffer) [] limit g
          (by simp only [chunkerMeasure, stateRank, List.length_nil] at hn hf ⊢; omega)
          (by simp only [chunkerMeasure, stateRank, List.length_nil] at hn hf ⊢; omega)
      | cons e tail =>
        cases e with
        | cluster =>
          have hp : poll (ChunkerState.buildingCluster cluster_head buffer)
              (.cluster :: tail) limit =
              (.ok (some (.clusterHead cluster_head)), .emittingClusterBody buffer, tail) := by
            simp [poll]
          rw [runFuel_emit _ _ _ _ _ _ _ hp]
          simp only [okChunks_ok, stShape, shapeOk, shapeStep]
          exact ih (.emittingClusterBody buffer) tail limit g
            (by simp only [chunkerMeasure, stateRank, List.length_cons] at hn hf ⊢; omega)
            (by simp only [chunkerMeasure, stateRank, List.length_cons] at hn hf ⊢; omega)
        | ebmlHead =>
          rcases henc : encode .ebmlHead 0 limit with err | newHeader
          · have hp : poll (ChunkerState.buildingCluster cluster_head buffer)
                (.ebmlHead :: tail) limit = (.error err, .«end», tail) := by
              simp [poll, henc]
            rw [runFuel_err _ _ _ _ _ _ _ hp]
            rfl
          · have hp : poll (ChunkerState.buildingCluster cluster_head buffer)
                (.ebmlHead :: tail) limit =
                (.ok (some (.clusterHead cluster_head)),
                  .emittingClusterBodyBeforeNewHeader buffer newHeader, tail) := by
              simp [poll, henc]
            rw [runFuel_emit _ _ _ _ _ _ _ hp]
            simp only [okChunks_ok, stShape, shapeOk, shapeStep]
            exact ih (.emittingClusterBodyBeforeNewHeader buffer newHeader) tail limit g
              (by simp only [chunkerMeasure, stateRank, List.length_cons] at hn hf ⊢; omega)
              (by simp only [chunkerMeasure, stateRank, List.length_cons] at hn hf ⊢; omega)
        | segment =>
          rcases henc : encode .segment 0 limit with err | newHeader
          · have hp : poll (ChunkerState.buildingCluster cluster_head buffer)
                (.segment :: tail) limit = (.error err, .«end», tail) := by
              simp [poll, henc]
            rw [runFuel_err _ _ _ _ _ _ _ hp]
            rfl
          · have hp : poll (ChunkerState.buildingCluster cluster_head buffer)
                (.segment :: tail) limit =
                (.ok (some (.clusterHead cluster_head)),
                  .emittingClusterBodyBeforeNewHeader buffer newHeader, tail) := by
              simp [poll, henc]
            rw [runFuel_emit _ _ _ _ _ _ _ hp]
            simp only [okChunks_ok, stShape, shapeOk, shapeStep]
            exact ih (.emittingClusterBodyBeforeNewHeader buffer newHeader) tail limit g
              (by simp only [chunkerMeasure, stateRank, List.length_cons] at hn hf ⊢; omega)
              (by simp only [chunkerMeasure, stateRank, List.length_cons] at hn hf ⊢; omega)
        | timecode t =>
          rw [runFuel_skip g _ _
            (.buildingCluster (cluster_head.update_timecode t) buffer) tail limit
            (by simp [poll])]
          exact ih (.buildingCluster (cluster_head.update_timecode t) buffer) tail limit (g + 1)
            (by simp only [chunkerMeasure, stateRank, List.length_cons] at hn hf ⊢; omega)
            (by simp only [chunkerMeasure, stateRank, List.length_cons] at hn hf ⊢; omega)
        | simpleBlock b =>
          rcases henc : encode (.simpleBlock b) buffer limit with err | buffer2
          · have hp : poll (ChunkerState.buildingCluster cluster_head buffer)
                (.simpleBlock b :: tail) limit = (.error err, .«end», tail) := by
              simp [poll, henc]
            rw [runFuel_err _ _ _ _ _ _ _ hp]
            rfl
          · rw [runFuel_skip g _ _
              (.buildingCluster
                ((if b.flags &&& 128 ≠ 0 then { cluster_head with keyframe := true }
                  else cluster_head).observe_simpleblock_timecode b.timecode) buffer2)
              tail limit (by simp [poll, henc])]
            exact ih (.buildingCluster
                ((if b.flags &&& 128 ≠ 0 then { cluster_head with keyframe := true }
                  else cluster_head).observe_simpleblock_timecode b.timecode) buffer2)
              tail limit (g + 1)
              (by simp only [chunkerMeasure, stateRank, List.length_cons] at hn hf ⊢; omega)
              (by simp only [chunkerMeasure, stateRank, List.length_cons] at hn hf ⊢; omega)
        | info =>
          rw [runFuel_skip g _ _ (.buildingCluster cluster_head buffer) tail limit
            (by simp [poll])]
          exact ih (.buildingCluster cluster_head buffer) tail limit (g + 1)
            (by simp only [chunkerMeasure, stateRank, List.length_cons] at hn hf ⊢; omega)
            (by simp only [chunkerMeasure, stateRank, List.length_cons] at hn hf ⊢; omega)
        | void =>
          rw [runFuel_skip g _ _ (.buildingCluster cluster_head buffer) tail limit
            (by simp [poll])]
          exact ih (.buildingCluster cluster_head buffer) tail limit (g + 1)
            (by simp only [chunkerMeasure, stateRank, List.length_cons] at hn hf ⊢; omega)
            (by simp only [chunkerMeasure, stateRank, List.length_cons] at hn hf ⊢; omega)
        | unknown id =>
          rw [runFuel_skip g _ _ (.buildingCluster cluster_head buffer) tail limit
            (by simp [poll])]
          exact ih (.buildingCluster cluster_head buffer) tail limit (g + 1)
            (by simp only [chunkerMeasure, stateRank, List.length_cons] at hn hf ⊢; omega)
            (by simp only [chunkerMeasure, stateRank, List.length_cons] at hn hf ⊢; omega)
        | tracks sz =>
          rcases henc : encode (.tracks sz) buffer limit with err | buffer2
          · have hp : poll (ChunkerState.buildingCluster cluster_head buffer)
                (.tracks sz :: tail) limit = (.error err, .«end», tail) := by
              simp [poll, henc]
            rw [runFuel_err _ _ _ _ _ _ _ hp]
            rfl
          · rw [runFuel_skip g _ _ (.buildingCluster cluster_head buffer2) tail limit
              (by simp [poll, henc])]
            exact ih (.buildingCluster cluster_head buffer2) tail limit (g + 1)
              (by simp only [chunkerMeasure, stateRank, List.length_cons] at hn hf ⊢; omega)
              (by simp only [chunkerMeasure, stateRank, List.length_cons] at hn hf ⊢; omega)

theorem poll_end (input : List WebmElement) (limit : Option Nat) :
    poll .«end» input limit = (.ok none, .«end», input) := by
  cases input <;> simp [poll]

theorem encode_error (element : WebmElement) (buffer : Nat) (limit : Option Nat)
    (err : WebmetroError) (h : encode element buffer limit = .error err) :
    err = .resourcesExceeded := by
  cases limit with
  | none => simp [encode] at h
  | some l =>
    simp only [encode] at h
    split at h
    · exact (Except.error.inj h).symm
    · simp at h

theorem uintOctets_le_eight (n : Nat) : uintOctets n ≤ 8 := by
  unfold uintOctets
  repeat' split
  all_goals omega

/-- C2: with a soft limit configured, `encode` fails with `ResourcesExceeded`
exactly when the buffer's length is already at or past the limit when the
encode is attempted; when the length is still below the limit the encode
succeeds, appending the element's full encoding — which may push the buffer
arbitrarily far past the limit, so only the next encode into that buffer
fails. -/
theorem c2_limit_checked_before_encode (element : WebmElement) (buffer limitv : Nat) :
    (encode element buffer (some limitv) = .error .resourcesExceeded ↔ limitv ≤ buffer) ∧
    (buffer < limitv →
      encode element buffer (some limitv) = .ok (buffer + encodeSize element)) := by
  by_cases hle : limitv ≤ buffer <;> simp [encode, hle] <;> omega

/-- Witness for C2 at concrete inputs: a 2000-byte element encodes into an
empty buffer under a 1024-byte limit, and the next encode fails. -/
theorem c2_limit_checked_before_encode_witness :
    encode (.tracks 2000) 0 (some 1024) = .ok (0 + encodeSize (.tracks 2000)) ∧
    (encode (.tracks 5) 2000 (some 1024) = .error .resourcesExceeded ↔ 1024 ≤ 2000) :=
  ⟨(c2_limit_checked_before_encode (.tracks 2000) 0 1024).2 (by decide),
    (c2_limit_checked_before_encode (.tracks 5) 2000 1024).1⟩

/-- C3 counterexample: with soft limit 1024, a single 2000-byte `Tracks`
element fed in `BuildingHeader` does NOT make the chunker emit
`Err(ResourcesExceeded)`: the limit is checked before the encode, the buffer
is still empty, so the encode succeeds and the run ends with `Ready(None)`
and no error. -/
theorem c3_counterexample :
    (chunk_webm [.tracks 2000] (some 1024)).1 = [] ∧
    (chunk_webm [.tracks 2000] (some 1024)).1 ≠
      [.error WebmetroError.resourcesExceeded] := by decide

/-- C3 amended: with soft limit 1024, a single 2000-byte `Tracks` element in
`BuildingHeader` is encoded without error (the buffer ends at 2000 bytes,
past the limit) and the stream ends with `Ready(None)`; the error surfaces
only on the next encode attempt — feeding any further encodable element makes
that pull return `Err(ResourcesExceeded)`, and after that every pull returns
`Ready(None)`. -/
theorem c3_amended :
    chunk_webm [.tracks 2000] (some 1024) = ([], .buildingHeader 2000, []) ∧
    chunk_webm [.tracks 2000, .tracks 1] (some 1024) =
      ([.error .resourcesExceeded], .«end», []) ∧
    (∀ input limit, poll .«end» input limit = (.ok none, .«end», input)) :=
  ⟨by decide, by decide, poll_end⟩

/-- Witness for C3 amended: the terminal-state pull at a concrete input. -/
theorem c3_amended_witness :
    poll .«end» [.cluster] (some 7) = (.ok none, .«end», [.cluster]) :=
  c3_amended.2.2 [.cluster] (some 7)

/-- C7 (scenario S3): on input `EbmlHead, Segment, Tracks, Cluster,
Timecode(1000), SimpleBlock{flags=0x80,timecode=0},
SimpleBlock{flags=0,timecode=33}, end-of-stream` (for any encoded sizes of the
`Tracks` element and the two blocks) the chunker emits exactly one `Headers`
chunk, one `ClusterHead` with `keyframe = true`, `start = 1000`, `end = 1033`,
and one `ClusterBody`, ends in the `End` state with all input consumed — so
every subsequent pull returns `Ready(None)`. -/
theorem c7_one_cluster_scenario (tsz s1 s2 : Nat) :
    chunk_webm [.ebmlHead, .segment, .tracks tsz, .cluster, .timecode 1000,
      .simpleBlock ⟨128, 0, s1⟩, .simpleBlock ⟨0, 33, s2⟩] none =
    ([.ok (.headers (36 + tsz)), .ok (.clusterHead ⟨true, 1000, 1033, 9⟩),
      .ok (.clusterBody (s1 + s2))], .«end», []) := by
  rw [chunk_webm, runChunker_poll]
  simp only [poll, encode, encodeSize]
  rw [runChunker_poll]
  simp only [poll, encode, encodeSize]
  rw [runChunker_poll]
  simp only [poll, encode, encodeSize]
  rw [runChunker_poll]
  simp only [poll]
  have h2 : (ClusterHead.new 0).update_timecode 1000 = ⟨false, 1000, 1000, 9⟩ := by decide
  have h3 : ClusterHead.observe_simpleblock_timecode ⟨true, 1000, 1000, 9⟩ 0 =
      ⟨true, 1000, 1000, 9⟩ := by decide
  have h4 : ClusterHead.observe_simpleblock_timecode ⟨true, 1000, 1000, 9⟩ 33 =
      ⟨true, 1000, 1033, 9⟩ := by decide
  simp [h2, h3, h4, Prod.mk.injEq, List.cons.injEq]

/-- Witness for C7 at concrete payload sizes. -/
theorem c7_one_cluster_scenario_witness :
    chunk_webm [.ebmlHead, .segment, .tracks 100, .cluster, .timecode 1000,
      .simpleBlock ⟨128, 0, 40⟩, .simpleBlock ⟨0, 33, 45⟩] none =
    ([.ok (.headers 136), .ok (.clusterHead ⟨true, 1000, 1033, 9⟩),
      .ok (.clusterBody 85)], .«end», []) :=
  c7_one_cluster_scenario 100 40 45

/-- C9 (spec-modelled: the byte-level encoder is external, so element sizes
follow the spec's standard-EBML layout model): a cluster-open marker plus a
`Timecode` element for any `u64` timecode occupy at most 16 bytes, so
`update_timecode` always fits the 16-byte scratch (`bytes_used ≤ 16`, which is
why its two encode unwraps cannot panic), `ClusterHead::new` does too, and
`observe_simpleblock_timecode` never touches the scratch. -/
theorem c9_scratch_bounded (h : ClusterHead) (t : Nat) :
    clusterOpenSize + timecodeElementSize (t % U64) ≤ 16 ∧
    (h.update_timecode t).bytes_used ≤ 16 ∧
    (ClusterHead.new t).bytes_used ≤ 16 ∧
    (∀ tc, (h.observe_simpleblock_timecode tc).bytes_used = h.bytes_used) := by
  have hb : clusterOpenSize + timecodeElementSize (t % U64) ≤ 16 := by
    have := uintOctets_le_eight (t % U64)
    simp only [clusterOpenSize, timecodeElementSize]
    omega
  refine ⟨hb, ?_, ?_, ?_⟩
  · simp only [ClusterHead.update_timecode]
    exact hb
  · simp only [ClusterHead.new, ClusterHead.update_timecode]
    exact hb
  · intro tc
    simp only [ClusterHead.observe_simpleblock_timecode]
    split <;> rfl

/-- Witness for C9 at the maximal `u64` timecode (the repository's own unit
test `enough_space_for_header` exercises exactly this value). -/
theorem c9_scratch_bounded_witness :
    (ClusterHead.new (2 ^ 64 - 1)).bytes_used ≤ 16 :=
  (c9_scratch_bounded (ClusterHead.new 0) (2 ^ 64 - 1)).2.2.1

/-- C10: for a `ClusterHead` with `end ≥ start` (and in-range `u64` fields),
`update_timecode t` sets `start := t` and `end := t + (end - start)` in `u64`
arithmetic, preserving the cluster's duration `end - start` (exactly when the
new `end` does not overflow, and always as a wrapped `u64` difference) rather
than leaving `end` unchanged. -/
theorem c10_update_timecode_preserves_duration (h : ClusterHead) (t : Nat)
    (hse : h.start ≤ h.«end») (hend : h.«end» < U64) (ht : t < U64) :
    (h.update_timecode t).start = t ∧
    (h.update_timecode t).«end» = (t + (h.«end» - h.start)) % U64 ∧
    (t + (h.«end» - h.start) < U64 →
      (h.update_timecode t).«end» - (h.update_timecode t).start = h.«end» - h.start) ∧
    ((h.update_timecode t).«end» + U64 - (h.update_timecode t).start) % U64 =
      h.«end» - h.start := by
  simp only [ClusterHead.update_timecode, U64] at *
  omega

/-- Witness for C10 at a concrete head and timecode. -/
theorem c10_update_timecode_preserves_duration_witness :
    (ClusterHead.update_timecode ⟨false, 1000, 1040, 9⟩ 5000).start = 5000 ∧
    (ClusterHead.update_timecode ⟨false, 1000, 1040, 9⟩ 5000).«end» =
      (5000 + (1040 - 1000)) % U64 ∧
    (5000 + (1040 - 1000) < U64 →
      (ClusterHead.update_timecode ⟨false, 1000, 1040, 9⟩ 5000).«end» -
        (ClusterHead.update_timecode ⟨false, 1000, 1040, 9⟩ 5000).start = 1040 - 1000) ∧
    ((ClusterHead.update_timecode ⟨false, 1000, 1040, 9⟩ 5000).«end» + U64 -
        (ClusterHead.update_timecode ⟨false, 1000, 1040, 9⟩ 5000).start) % U64 =
      1040 - 1000 :=
  c10_update_timecode_preserves_duration ⟨false, 1000, 1040, 9⟩ 5000
    (by decide) (by decide) (by decide)

/-- C4 counterexample: a `SimpleBlock` with negative timecode delta does NOT
always leave `end` unchanged.  On the head `ClusterHead::new(0)`
(`start = 0`), a block with delta `-1` sign-extends to `2^64 - 1`, the
wrapped absolute timecode `0 + (2^64 - 1)` strictly exceeds `start = 0`, and
`end` is advanced to `2^64 - 1`. -/
theorem c4_counterexample :
    ((ClusterHead.new 0).observe_simpleblock_timecode (-1)).«end» = 2 ^ 64 - 1 ∧
    ((ClusterHead.new 0).observe_simpleblock_timecode (-1)).«end» ≠
      (ClusterHead.new 0).«end» := by decide

/-- C4 amended: `observe_simpleblock_timecode` advances `end` only when the
wrapped `u64` absolute timecode `start + (delta as u64)` strictly exceeds
`start` (and then sets `end` to it); a zero delta always leaves the head
unchanged; a negative delta leaves the head unchanged whenever its magnitude
is at most `start` (no wraparound), and a positive delta advances
`end` to `start + delta` whenever that does not overflow.  (A negative delta
whose magnitude exceeds `start` wraps around and advances `end` —
see the counterexample.) -/
theorem c4_end_advance_policy (h : ClusterHead) (tc : Int) :
    ((h.observe_simpleblock_timecode tc).«end» ≠ h.«end» →
      h.start < (h.start + i16ToU64 tc) % U64 ∧
      (h.observe_simpleblock_timecode tc).«end» = (h.start + i16ToU64 tc) % U64) ∧
    (tc = 0 → h.observe_simpleblock_timecode tc = h) ∧
    (tc < 0 → -2 ^ 15 ≤ tc → (-tc).toNat ≤ h.start → h.start < U64 →
      h.observe_simpleblock_timecode tc = h) ∧
    (0 < tc → tc < 2 ^ 15 → h.start + tc.toNat < U64 →
      (h.observe_simpleblock_timecode tc).«end» = h.start + tc.toNat) := by
  refine ⟨?_, ?_, ?_, ?_⟩
  · simp only [ClusterHead.observe_simpleblock_timecode]
    split
    · intro hne
      rename_i hcond
      exact ⟨hcond, rfl⟩
    · intro hne
      exact absurd rfl hne
  · intro h0
    subst h0
    simp only [ClusterHead.observe_simpleblock_timecode, i16ToU64, U64]
    split
    · omega
    · rfl
  · intro h1 h2 h3 h4
    simp only [ClusterHead.observe_simpleblock_timecode, i16ToU64, U64] at *
    split
    · omega
    · rfl
  · intro h1 h2 h3
    simp only [ClusterHead.observe_simpleblock_timecode, i16ToU64, U64] at *
    split
    · simp only []
      omega
    · omega

/-- Witness for C4 amended: a zero delta and an in-range negative delta leave
a head unchanged; an in-range positive delta advances `end`. -/
theorem c4_end_advance_policy_witness :
    ClusterHead.observe_simpleblock_timecode ⟨false, 1000, 1000, 9⟩ 0 =
      ⟨false, 1000, 1000, 9⟩ ∧
    ClusterHead.observe_simpleblock_timecode ⟨false, 1000, 1000, 9⟩ (-1) =
      ⟨false, 1000, 1000, 9⟩ ∧
    (ClusterHead.observe_simpleblock_timecode ⟨false, 1000, 1000, 9⟩ 33).«end» =
      1000 + (33 : Int).toNat :=
  ⟨(c4_end_advance_policy ⟨false, 1000, 1000, 9⟩ 0).2.1 rfl,
    (c4_end_advance_policy ⟨false, 1000, 1000, 9⟩ (-1)).2.2.1
      (by decide) (by decide) (by decide) (by decide),
    (c4_end_advance_policy ⟨false, 1000, 1000, 9⟩ 33).2.2.2
      (by decide) (by decide) (by decide)⟩

/-- The literal shape asserted by the spec's invariant 2 for a whole stream:
exactly one `Headers` followed by complete `(ClusterHead, ClusterBody)` pairs
and nothing else. -/
def strictPairs : List Chunk → Bool
  | [] => true
  | .clusterHead _ :: .clusterBody _ :: l => strictPairs l
  | _ => false

def strictShape : List Chunk → Bool
  | .headers _ :: l => strictPairs l
  | _ => false

/-- C1 counterexample: the chunk sequence does not always consist of exactly
one `Headers` followed by `(ClusterHead, ClusterBody)` pairs.  A mid-cluster
restart (`EbmlHead` during `BuildingCluster`) makes the chunker emit a second
`Headers` chunk after the pending pair; also, an input with no `Cluster`
marker emits no `Headers` at all. -/
theorem c1_counterexample :
    strictShape (okChunks (chunk_webm [.cluster, .ebmlHead, .cluster] none).1) = false ∧
    okChunks (chunk_webm [.cluster, .ebmlHead, .cluster] none).1 =
      [.headers 0, .clusterHead ⟨false, 0, 0, 8⟩, .clusterBody 0,
        .headers 31, .clusterHead ⟨false, 0, 0, 8⟩, .clusterBody 0] ∧
    strictShape (okChunks (chunk_webm [] none).1) = false := by decide

def isCluster : WebmElement → Bool
  | .cluster => true
  | _ => false

/-- The restart elements: `EbmlHead` and `Segment` (`chunk.rs:160-161`). -/
def isRestart : WebmElement → Bool
  | .ebmlHead => true
  | .segment => true
  | _ => false

def countRestarts (input : List WebmElement) : Nat := input.countP (fun e => isRestart e)

def isHeaders : Chunk → Bool
  | .headers _ => true
  | _ => false

def countHeaders (l : List Chunk) : Nat := l.countP (fun c => isHeaders c)

theorem countRestarts_cons (e : WebmElement) (input : List WebmElement) :
    countRestarts (e :: input) =
      countRestarts input + (if isRestart e = true then 1 else 0) := by
  simp [countRestarts, List.countP_cons]

theorem countHeaders_nil : countHeaders [] = 0 := rfl

theorem countHeaders_headers (b : Nat) (l : List Chunk) :
    countHeaders (.headers b :: l) = countHeaders l + 1 := by
  simp [countHeaders, List.countP_cons, isHeaders]

theorem countHeaders_clusterHead (hh : ClusterHead) (l : List Chunk) :
    countHeaders (.clusterHead hh :: l) = countHeaders l := by
  simp [countHeaders, List.countP_cons, isHeaders]

theorem countHeaders_clusterBody (b : Nat) (l : List Chunk) :
    countHeaders (.clusterBody b :: l) = countHeaders l := by
  simp [countHeaders, List.countP_cons, isHeaders]

/-- From `BuildingHeader`, an input containing no `Cluster` marker produces
no chunk at all: every event is discarded or encoded into the header buffer
(or breaches the limit, ending the stream with an error but no chunk), and
only a `Cluster` event makes the chunker emit. -/
theorem c1_noCluster_aux : ∀ (input : List WebmElement) (buffer : Nat)
    (limit : Option Nat) (fuel : Nat),
    chunkerMeasure (.buildingHeader buffer) input < fuel →
    input.all (fun e => !isCluster e) = true →
    okChunks (runFuel fuel (.buildingHeader buffer) input limit).1 = [] := by
  intro input
  induction input with
  | nil =>
    intro buffer limit fuel hf hall
    obtain ⟨g, rfl⟩ : ∃ g, fuel = g + 1 := ⟨fuel - 1, by omega⟩
    have hp : poll (ChunkerState.buildingHeader buffer) [] limit =
        (.ok none, .buildingHeader buffer, []) := by
      simp [poll]
    rw [runFuel_none _ _ _ _ _ _ hp]
    rfl
  | cons e tail ih =>
    intro buffer limit fuel hf hall
    obtain ⟨g, rfl⟩ : ∃ g, fuel = g + 1 := ⟨fuel - 1, by omega⟩
    have htail : tail.all (fun e => !isCluster e) = true := by
      simp only [List.all_cons, Bool.and_eq_true] at hall
      exact hall.2
    have hm : chunkerMeasure (ChunkerState.buildingHeader buffer) tail < g + 1 := by
      simp only [chunkerMeasure, stateRank, List.length_cons] at hf ⊢
      omega
    cases e with
    | cluster => simp [List.all_cons, isCluster] at hall
    | info =>
      rw [runFuel_skip g _ _ (.buildingHeader buffer) tail limit (by simp [poll])]
      exact ih buffer limit (g + 1) hm htail
    | void =>
      rw [runFuel_skip g _ _ (.buildingHeader buffer) tail limit (by simp [poll])]
      exact ih buffer limit (g + 1) hm htail
    | unknown id =>
      rw [runFuel_skip g _ _ (.buildingHeader buffer) tail limit (by simp [poll])]
      exact ih buffer limit (g + 1) hm htail
    | ebmlHead =>
      rcases henc : encode .ebmlHead buffer limit with err | buffer2
      · have hp : poll (ChunkerState.buildingHeader buffer) (.ebmlHead :: tail) limit =
            (.error err, .«end», tail) := by
          simp [poll, henc]
        rw [runFuel_err _ _ _ _ _ _ _ hp, okChunks_err, okChunks_nil]
      · rw [runFuel_skip g _ _ (.buildingHeader buffer2) tail limit (by simp [poll, henc])]
        exact ih buffer2 limit (g + 1) hm htail
    | segment =>
      rcases henc : encode .segment buffer limit with err | buffer2
      · have hp : poll (ChunkerState.buildingHeader buffer) (.segment :: tail) limit =
            (.error err, .«end», tail) := by
          simp [poll, henc]
        rw [runFuel_err _ _ _ _ _ _ _ hp, okChunks_err, okChunks_nil]
      · rw [runFuel_skip g _ _ (.buildingHeader buffer2) tail limit (by simp [poll, henc])]
        exact ih buffer2 limit (g + 1) hm htail
    | tracks sz =>
      rcases henc : encode (.tracks sz) buffer limit with err | buffer2
      · have hp : poll (ChunkerState.buildingHeader buffer) (.tracks sz :: tail) limit =
            (.error err, .«end», tail) := by
          simp [poll, henc]
        rw [runFuel_err _ _ _ _ _ _ _ hp, okChunks_err, okChunks_nil]
      · rw [runFuel_skip g _ _ (.buildingHeader buffer2) tail limit (by simp [poll, henc])]
        exact ih buffer2 limit (g + 1) hm htail
    | timecode t =>
      rcases henc : encode (.timecode t) buffer limit with err | buffer2
      · have hp : poll (ChunkerState.buildingHeader buffer) (.timecode t :: tail) limit =
            (.error err, .«end», tail) := by
          simp [poll, henc]
        rw [runFuel_err _ _ _ _ _ _ _ hp, okChunks_err, okChunks_nil]
      · rw [runFuel_skip g _ _ (.buildingHeader buffer2) tail limit (by simp [poll, henc])]
        exact ih buffer2 limit (g + 1) hm htail
    | simpleBlock b =>
      rcases henc : encode (.simpleBlock b) buffer limit with err | buffer2
      · have hp : poll (ChunkerState.buildingHeader buffer) (.simpleBlock b :: tail) limit =
            (.error err, .«end», tail) := by
          simp [poll, henc]
        rw [runFuel_err _ _ _ _ _ _ _ hp, okChunks_err, okChunks_nil]
      · rw [runFuel_skip g _ _ (.buildingHeader buffer2) tail limit (by simp [poll, henc])]
        exact ih buffer2 limit (g + 1) hm htail

/-- How many more `Headers` chunks a state can emit without consuming a
restart element: one for the header being built (`BuildingHeader`, and
`EmittingClusterBodyBeforeNewHeader`, which resumes header-building), none
otherwise. -/
def headersBudget : ChunkerState → Nat
  | .buildingHeader _ => 1
  | .emittingClusterBodyBeforeNewHeader _ _ => 1
  | _ => 0

/-- A new `Headers` chunk can only be produced by consuming a restart
element: a complete run emits at most `headersBudget` plus one `Headers`
chunk per `EbmlHead`/`Segment` element of the input. -/
theorem c1_headers_bound_aux : ∀ (n : Nat) (st : ChunkerState)
    (input : List WebmElement) (limit : Option Nat) (fuel : Nat),
    chunkerMeasure st input ≤ n → chunkerMeasure st input < fuel →
    countHeaders (okChunks (runFuel fuel st input limit).1) ≤
      headersBudget st + countRestarts input := by
  intro n
  induction n with
  | zero =>
    intro st input limit fuel hn hf
    obtain ⟨g, rfl⟩ : ∃ g, fuel = g + 1 := ⟨fuel - 1, by omega⟩
    have hrank : stateRank st = 0 ∧ input.length = 0 := by
      simp only [chunkerMeasure] at hn
      omega
    have hinput : input = [] := List.length_eq_zero.mp hrank.2
    subst hinput
    have hr := hrank.1
    cases st <;> simp [stateRank] at hr
    rw [runFuel_none _ _ _ _ _ _ (poll_end [] limit)]
    simp [countHeaders, countRestarts, headersBudget, okChunks_nil]
  | succ n ih =>
    intro st input limit fuel hn hf
    obtain ⟨g, rfl⟩ : ∃ g, fuel = g + 1 := ⟨fuel - 1, by omega⟩
    cases st with
    | «end» =>
      rw [runFuel_none _ _ _ _ _ _ (poll_end input limit)]
      simp [countHeaders, headersBudget, okChunks_nil]
    | emittingFinalClusterBody body =>
      have hp : poll (ChunkerState.emittingFinalClusterBody body) input limit =
          (.ok (some (.clusterBody body)), .«end», input) := by
        simp [poll]
      rw [runFuel_emit _ _ _ _ _ _ _ hp, okChunks_ok, countHeaders_clusterBody]
      have hih := ih ChunkerState.«end» input limit g
        (by simp only [chunkerMeasure, stateRank] at hn hf ⊢; omega)
        (by simp only [chunkerMeasure, stateRank] at hn hf ⊢; omega)
      simp only [headersBudget] at hih ⊢
      omega
    | emittingClusterBody body =>
      have hp : poll (ChunkerState.emittingClusterBody body) input limit =
          (.ok (some (.clusterBody body)), .buildingCluster (ClusterHead.new 0) 0, input) := by
        simp [poll]
      rw [runFuel_emit _ _ _ _ _ _ _ hp, okChunks_ok, countHeaders_clusterBody]
      have hih := ih (.buildingCluster (ClusterHead.new 0) 0) input limit g
        (by simp only [chunkerMeasure, stateRank] at hn hf ⊢; omega)
        (by simp only [chunkerMeasure, stateRank] at hn hf ⊢; omega)
      simp only [headersBudget] at hih ⊢
      omega
    | emittingClusterBodyBeforeNewHeader body newHeader =>
      have hp : poll (ChunkerState.emittingClusterBodyBeforeNewHeader body newHeader)
          input limit =
          (.ok (some (.clusterBody body)), .buildingHeader newHeader, input) := by
        simp [poll]
      rw [runFuel_emit _ _ _ _ _ _ _ hp, okChunks_ok, countHeaders_clusterBody]
      have hih := ih (.buildingHeader newHeader) input limit g
        (by simp only [chunkerMeasure, stateRank] at hn hf ⊢; omega)
        (by simp only [chunkerMeasure, stateRank] at hn hf ⊢; omega)
      simp only [headersBudget] at hih ⊢
      omega
    | buildingHeader buffer =>
      cases input with
      | nil =>
        have hp : poll (ChunkerState.buildingHeader buffer) [] limit =
            (.ok none, .buildingHeader buffer, []) := by
          simp [poll]
        rw [runFuel_none _ _ _ _ _ _ hp]
        simp [countHeaders, headersBudget, okChunks_nil]
      | cons e tail =>
        cases e with
        | cluster =>
          have hp : poll (ChunkerState.buildingHeader buffer) (.cluster :: tail) limit =
              (.ok (some (.headers buffer)), .buildingCluster (ClusterHead.new 0) 0, tail) := by
            simp [poll]
          rw [runFuel_emit _ _ _ _ _ _ _ hp, okChunks_ok, countHeaders_headers]
          have hih := ih (.buildingCluster (ClusterHead.new 0) 0) tail limit g
            (by simp only [chunkerMeasure, stateRank, List.length_cons] at hn hf ⊢; omega)
            (by simp only [chunkerMeasure, stateRank, List.length_cons] at hn hf ⊢; omega)
          simp only [headersBudget, countRestarts_cons, isRestart, reduceIte] at hih ⊢
          omega
        | info =>
          rw [runFuel_skip g _ _ (.buildingHeader buffer) tail limit (by simp [poll])]
          have hih := ih (.buildingHeader buffer) tail limit (g + 1)
            (by simp only [chunkerMeasure, stateRank, List.length_cons] at hn hf ⊢; omega)
            (by simp only [chunkerMeasure, stateRank, List.length_cons] at hn hf ⊢; omega)
          simp only [headersBudget, countRestarts_cons, isRestart, reduceIte] at hih ⊢
          omega
        | void =>
          rw [runFuel_skip g _ _ (.buildingHeader buffer) tail limit (by simp [poll])]
          have hih := ih (.buildingHeader buffer) tail limit (g + 1)
            (by simp only [chunkerMeasure, stateRank, List.length_cons] at hn hf ⊢; omega)
            (by simp only [chunkerMeasure, stateRank, List.length_cons] at hn hf ⊢; omega)
          simp only [headersBudget, countRestarts_cons, isRestart, reduceIte] at hih ⊢
          omega
        | unknown id =>
          rw [runFuel_skip g _ _ (.buildingHeader buffer) tail limit (by simp [poll])]
          have hih := ih (.buildingHeader buffer) tail limit (g + 1)
            (by simp only [chunkerMeasure, stateRank, List.length_cons] at hn hf ⊢; omega)
            (by simp only [chunkerMeasure, stateRank, List.length_cons] at hn hf ⊢; omega)
          simp only [headersBudget, countRestarts_cons, isRestart, reduceIte] at hih ⊢
          omega
        | ebmlHead =>
          rcases henc : encode .ebmlHead buffer limit with err | buffer2
          · have hp : poll (ChunkerState.buildingHeader buffer) (.ebmlHead :: tail) limit =
                (.error err, .«end», tail) := by
              simp [poll, henc]
            rw [runFuel_err _ _ _ _ _ _ _ hp, okChunks_err, okChunks_nil]
            simp [countHeaders]
          · rw [runFuel_skip g _ _ (.buildingHeader buffer2) tail limit (by simp [poll, henc])]
            have hih := ih (.buildingHeader buffer2) tail limit (g + 1)
              (by simp only [chunkerMeasure, stateRank, List.length_cons] at hn hf ⊢; omega)
              (by simp only [chunkerMeasure, stateRank, List.length_cons] at hn hf ⊢; omega)
            simp only [headersBudget, countRestarts_cons, isRestart, reduceIte] at hih ⊢
            omega
        | segment =>
          rcases henc : encode .segment buffer limit with err | buffer2
          · have hp : poll (ChunkerState.buildingHeader buffer) (.segment :: tail) limit =
                (.error err, .«end», tail) := by
              simp [poll, henc]
            rw [runFuel_err _ _ _ _ _ _ _ hp, okChunks_err, okChunks_nil]
            simp [countHeaders]
          · rw [runFuel_skip g _ _ (.buildingHeader buffer2) tail limit (by simp [poll, henc])]
            have hih := ih (.buildingHeader buffer2) tail limit (g + 1)
              (by simp only [chunkerMeasure, stateRank, List.length_cons] at hn hf ⊢; omega)
              (by simp only [chunkerMeasure, stateRank, List.length_cons] at hn hf ⊢; omega)
            simp only [headersBudget, countRestarts_cons, isRestart, reduceIte] at hih ⊢
            omega
        | tracks sz =>
          rcases henc : encode (.tracks sz) buffer limit with err | buffer2
          · have hp : poll (ChunkerState.buildingHeader buffer) (.tracks sz :: tail) limit =
                (.error err, .«end», tail) := by
              simp [poll, henc]
            rw [runFuel_err _ _ _ _ _ _ _ hp, okChunks_err, okChunks_nil]
            simp [countHeaders]
          · rw [runFuel_skip g _ _ (.buildingHeader buffer2) tail limit (by simp [poll, henc])]
            have hih := ih (.buildingHeader buffer2) tail limit (g + 1)
              (by simp only [chunkerMeasure, stateRank, List.length_cons] at hn hf ⊢; omega)
              (by simp only [chunkerMeasure, stateRank, List.length_cons] at hn hf ⊢; omega)
            simp only [headersBudget, countRestarts_cons, isRestart, reduceIte] at hih ⊢
            omega
        | timecode t =>
          rcases henc : encode (.timecode t) buffer limit with err | buffer2
          · have hp : poll (ChunkerState.buildingHeader buffer) (.timecode t :: tail) limit =
                (.error err, .«end», tail) := by
              simp [poll, henc]
            rw [runFuel_err _ _ _ _ _ _ _ hp, okChunks_err, okChunks_nil]
            simp [countHeaders]
          · rw [runFuel_skip g _ _ (.buildingHeader buffer2) tail limit (by simp [poll, henc])]
            have hih := ih (.buildingHeader buffer2) tail limit (g + 1)
              (by simp only [chunkerMeasure, stateRank, List.length_cons] at hn hf ⊢; omega)
              (by simp only [chunkerMeasure, stateRank, List.length_cons] at hn hf ⊢; omega)
            simp only [headersBudget, countRestarts_cons, isRestart, reduceIte] at hih ⊢
            omega
        | simpleBlock b =>
          rcases henc : encode (.simpleBlock b) buffer limit with err | buffer2
          · have hp : poll (ChunkerState.buildingHeader buffer) (.simpleBlock b :: tail) limit =
                (.error err, .«end», tail) := by
              simp [poll, henc]
            rw [runFuel_err _ _ _ _ _ _ _ hp, okChunks_err, okChunks_nil]
            simp [countHeaders]
          · rw [runFuel_skip g _ _ (.buildingHeader buffer2) tail limit (by simp [poll, henc])]
            have hih := ih (.buildingHeader buffer2) tail limit (g + 1)
              (by simp only [chunkerMeasure, stateRank, List.length_cons] at hn hf ⊢; omega)
              (by simp only [chunkerMeasure, stateRank, List.length_cons] at hn hf ⊢; omega)
            simp only [headersBudget, countRestarts_cons, isRestart, reduceIte] at hih ⊢
            omega
    | buildingCluster cluster_head buffer =>
      cases input with
      | nil =>
        have hp : poll (ChunkerState.buildingCluster cluster_head buffer) [] limit =
            (.ok (some (.clusterHead cluster_head)), .emittingFinalClusterBody buffer, []) := by
          simp [poll]
        rw [runFuel_emit _ _ _ _ _ _ _ hp, okChunks_ok, countHeaders_clusterHead]
        have hih := ih (.emittingFinalClusterBody buffer) [] limit g
          (by simp only [chunkerMeasure, stateRank, List.length_nil] at hn hf ⊢; omega)
          (by simp only [chunkerMeasure, stateRank, List.length_nil] at hn hf ⊢; omega)
        simp only [headersBudget] at hih ⊢
        omega
      | cons e tail =>
        cases e with
        | cluster =>
          have hp : poll (ChunkerState.buildingCluster cluster_head buffer)
              (.cluster :: tail) limit =
              (.ok (some (.clusterHead cluster_head)), .emittingClusterBody buffer, tail) := by
            simp [poll]
          rw [runFuel_emit _ _ _ _ _ _ _ hp, okChunks_ok, countHeaders_clusterHead]
          have hih := ih (.emittingClusterBody buffer) tail limit g
            (by simp only [chunkerMeasure, stateRank, List.length_cons] at hn hf ⊢; omega)
            (by simp only [chunkerMeasure, stateRank, List.length_cons] at hn hf ⊢; omega)
          simp only [headersBudget, countRestarts_cons, isRestart, reduceIte] at hih ⊢
          omega
        | ebmlHead =>
          rcases henc : encode .ebmlHead 0 limit with err | newHeader
          · have hp : poll (ChunkerState.buildingCluster cluster_head buffer)
                (.ebmlHead :: tail) limit = (.error err, .«end», tail) := by
              simp [poll, henc]
            rw [runFuel_err _ _ _ _ _ _ _ hp, okChunks_err, okChunks_nil]
            simp [countHeaders]
          · have hp : poll (ChunkerState.buildingCluster cluster_head buffer)
                (.ebmlHead :: tail) limit =
                (.ok (some (.clusterHead cluster_head)),
                  .emittingClusterBodyBeforeNewHeader buffer newHeader, tail) := by
              simp [poll, henc]
            rw [runFuel_emit _ _ _ _ _ _ _ hp, okChunks_ok, countHeaders_clusterHead]
            have hih := ih (.emittingClusterBodyBeforeNewHeader buffer newHeader) tail limit g
              (by simp only [chunkerMeasure, stateRank, List.length_cons] at hn hf ⊢; omega)
              (by simp only [chunkerMeasure, stateRank, List.length_cons] at hn hf ⊢; omega)
            simp only [headersBudget, countRestarts_cons, isRestart, reduceIte] at hih ⊢
            omega
        | segment =>
          rcases henc : encode .segment 0 limit with err | newHeader
          · have hp : poll (ChunkerState.buildingCluster cluster_head buffer)
                (.segment :: tail) limit = (.error err, .«end», tail) := by
              simp [poll, henc]
            rw [runFuel_err _ _ _ _ _ _ _ hp, okChunks_err, okChunks_nil]
            simp [countHeaders]
          · have hp : poll (ChunkerState.buildingCluster cluster_head buffer)
                (.segment :: tail) limit =
                (.ok (some (.clusterHead cluster_head)),
                  .emittingClusterBodyBeforeNewHeader buffer newHeader, tail) := by
              simp [poll, henc]
            rw [runFuel_emit _ _ _ _ _ _ _ hp, okChunks_ok, countHeaders_clusterHead]
            have hih := ih (.emittingClusterBodyBeforeNewHeader buffer newHeader) tail limit g
              (by simp only [chunkerMeasure, stateRank, List.length_cons] at hn hf ⊢; omega)
              (by simp only [chunkerMeasure, stateRank, List.length_cons] at hn hf ⊢; omega)
            simp only [headersBudget, countRestarts_cons, isRestart, reduceIte] at hih ⊢
            omega
        | timecode t =>
          rw [runFuel_skip g _ _
            (.buildingCluster (cluster_head.update_timecode t) buffer) tail limit
            (by simp [poll])]
          have hih := ih (.buildingCluster (cluster_head.update_timecode t) buffer)
            tail limit (g + 1)
            (by simp only [chunkerMeasure, stateRank, List.length_cons] at hn hf ⊢; omega)
            (by simp only [chunkerMeasure, stateRank, List.length_cons] at hn hf ⊢; omega)
          simp only [headersBudget, countRestarts_cons, isRestart, reduceIte] at hih ⊢
          omega
        | simpleBlock b =>
          rcases henc : encode (.simpleBlock b) buffer limit with err | buffer2
          · have hp : poll (ChunkerState.buildingCluster cluster_head buffer)
                (.simpleBlock b :: tail) limit = (.error err, .«end», tail) := by
              simp [poll, henc]
            rw [runFuel_err _ _ _ _ _ _ _ hp, okChunks_err, okChunks_nil]
            simp [countHeaders]
          · rw [runFuel_skip g _ _
              (.buildingCluster
                ((if b.flags &&& 128 ≠ 0 then { cluster_head with keyframe := true }
                  else cluster_head).observe_simpleblock_timecode b.timecode) buffer2)
              tail limit (by simp [poll, henc])]
            have hih := ih (.buildingCluster
                ((if b.flags &&& 128 ≠ 0 then { cluster_head with keyframe := true }
                  else cluster_head).observe_simpleblock_timecode b.timecode) buffer2)
              tail limit (g + 1)
              (by simp only [chunkerMeasure, stateRank, List.length_cons] at hn hf ⊢; omega)
              (by simp only [chunkerMeasure, stateRank, List.length_cons] at hn hf ⊢; omega)
            simp only [headersBudget, countRestarts_cons, isRestart, reduceIte] at hih ⊢
            omega
        | info =>
          rw [runFuel_skip g _ _ (.buildingCluster cluster_head buffer) tail limit
            (by simp [poll])]
          have hih := ih (.buildingCluster cluster_head buffer) tail limit (g + 1)
            (by simp only [chunkerMeasure, stateRank, List.length_cons] at hn hf ⊢; omega)
            (by simp only [chunkerMeasure, stateRank, List.length_cons] at hn hf ⊢; omega)
          simp only [headersBudget, countRestarts_cons, isRestart, reduceIte] at hih ⊢
          omega
        | void =>
          rw [runFuel_skip g _ _ (.buildingCluster cluster_head buffer) tail limit
            (by simp [poll])]
          have hih := ih (.buildingCluster cluster_head buffer) tail limit (g + 1)
            (by simp only [chunkerMeasure, stateRank, List.length_cons] at hn hf ⊢; omega)
            (by simp only [chunkerMeasure, stateRank, List.length_cons] at hn hf ⊢; omega)
          simp only [headersBudget, countRestarts_cons, isRestart, reduceIte] at hih ⊢
          omega
        | unknown id =>
          rw [runFuel_skip g _ _ (.buildingCluster cluster_head buffer) tail limit
            (by simp [poll])]
          have hih := ih (.buildingCluster cluster_head buffer) tail limit (g + 1)
            (by simp only [chunkerMeasure, stateRank, List.length_cons] at hn hf ⊢; omega)
            (by simp only [chunkerMeasure, stateRank, List.length_cons] at hn hf ⊢; omega)
          simp only [headersBudget, countRestarts_cons, isRestart, reduceIte] at hih ⊢
          omega
        | tracks sz =>
          rcases henc : encode (.tracks sz) buffer limit with err | buffer2
          · have hp : poll (ChunkerState.buildingCluster cluster_head buffer)
                (.tracks sz :: tail) limit = (.error err, .«end», tail) := by
              simp [poll, henc]
            rw [runFuel_err _ _ _ _ _ _ _ hp, okChunks_err, okChunks_nil]
            simp [countHeaders]
          · rw [runFuel_skip g _ _ (.buildingCluster cluster_head buffer2) tail limit
              (by simp [poll, henc])]
            have hih := ih (.buildingCluster cluster_head buffer2) tail limit (g + 1)
              (by simp only [chunkerMeasure, stateRank, List.length_cons] at hn hf ⊢; omega)
              (by simp only [chunkerMeasure, stateRank, List.length_cons] at hn hf ⊢; omega)
            simp only [headersBudget, countRestarts_cons, isRestart, reduceIte] at hih ⊢
            omega

/-- C1 amended: for every input event sequence, the successfully emitted
chunk sequence is a concatenation of zero or more segments, each consisting of
exactly one `Headers` chunk followed by complete `(ClusterHead, ClusterBody)`
pairs in that order (acceptance of the `shapeOk`/`shapeStep` grammar from
`segStart`); in particular a `ClusterBody` never appears without an
immediately preceding `ClusterHead`, a `ClusterHead` is always immediately
followed by its `ClusterBody`, and no chunk precedes the first `Headers`.
Moreover a new segment can open only by consuming a mid-stream restart
element — at most `1 + countRestarts input` (i.e. one plus the number of
`EbmlHead`/`Segment` events) `Headers` chunks are ever emitted — and an input
that never contains a `Cluster` marker emits no chunks at all. -/
theorem c1_chunk_stream_shape (input : List WebmElement) (limit : Option Nat) :
    shapeOk .segStart (okChunks (chunk_webm input limit).1) = true ∧
    countHeaders (okChunks (chunk_webm input limit).1) ≤ 1 + countRestarts input ∧
    (input.all (fun e => !isCluster e) = true →
      okChunks (chunk_webm input limit).1 = []) := by
  refine ⟨?_, ?_, ?_⟩
  · unfold chunk_webm runChunker
    exact shape_aux (chunkerMeasure (.buildingHeader 0) input) (.buildingHeader 0) input limit
      (chunkerMeasure (.buildingHeader 0) input + 1) (le_refl _) (Nat.lt_succ_self _)
  · unfold chunk_webm runChunker
    exact c1_headers_bound_aux (chunkerMeasure (.buildingHeader 0) input)
      (.buildingHeader 0) input limit (chunkerMeasure (.buildingHeader 0) input + 1)
      (le_refl _) (Nat.lt_succ_self _)
  · intro hall
    unfold chunk_webm runChunker
    exact c1_noCluster_aux input 0 limit (chunkerMeasure (.buildingHeader 0) input + 1)
      (Nat.lt_succ_self _) hall

/-- Witness for C1 amended at concrete inputs, including a no-`Cluster` input
discharging the hypothesis of the third conjunct. -/
theorem c1_chunk_stream_shape_witness :
    shapeOk .segStart (okChunks (chunk_webm [.cluster, .timecode 7] none).1) = true ∧
    countHeaders (okChunks (chunk_webm [.cluster, .ebmlHead, .cluster] none).1) ≤
      1 + countRestarts [.cluster, .ebmlHead, .cluster] ∧
    okChunks (chunk_webm [.ebmlHead, .segment, .tracks 9] none).1 = [] :=
  ⟨(c1_chunk_stream_shape [.cluster, .timecode 7] none).1,
    (c1_chunk_stream_shape [.cluster, .ebmlHead, .cluster] none).2.1,
    (c1_chunk_stream_shape [.ebmlHead, .segment, .tracks 9] none).2.2 (by decide)⟩

/-- C6: when `EbmlHead` or `Segment` arrives while the chunker is building a
cluster, the pending cluster's `ClusterHead` chunk and then its `ClusterBody`
chunk are emitted before any new `Headers` chunk: the run continues with
exactly `ClusterHead`, `ClusterBody`, and only then whatever the fresh
`BuildingHeader` state emits (whose first chunk, if any, is the new
`Headers`).  The only exception is a soft-limit breach on the fresh header
buffer (`limit = Some 0`), in which case the error is surfaced instead and
nothing further — in particular no `Headers` — is ever emitted. -/
theorem c6_restart_emits_pending_cluster_first (cluster_head : ClusterHead)
    (buffer : Nat) (rest : List WebmElement) (limit : Option Nat)
    (element : WebmElement) (hel : element = .ebmlHead ∨ element = .segment) :
    (∀ err, encode element 0 limit = .error err →
      runChunker (.buildingCluster cluster_head buffer) (element :: rest) limit =
        ([.error err], .«end», rest)) ∧
    (∀ newHeader, encode element 0 limit = .ok newHeader →
      runChunker (.buildingCluster cluster_head buffer) (element :: rest) limit =
        (.ok (.clusterHead cluster_head) :: .ok (.clusterBody buffer) ::
            (runChunker (.buildingHeader newHeader) rest limit).1,
          (runChunker (.buildingHeader newHeader) rest limit).2.1,
          (runChunker (.buildingHeader newHeader) rest limit).2.2)) := by
  rcases hel with rfl | rfl
  · constructor
    · intro err henc
      rw [runChunker_poll (.buildingCluster cluster_head buffer) (.ebmlHead :: rest) limit]
      simp only [poll, henc]
    · intro newHeader henc
      rw [runChunker_poll (.buildingCluster cluster_head buffer) (.ebmlHead :: rest) limit]
      simp only [poll, henc]
      rw [runChunker_poll (.emittingClusterBodyBeforeNewHeader buffer newHeader) rest limit]
      simp only [poll]
  · constructor
    · intro err henc
      rw [runChunker_poll (.buildingCluster cluster_head buffer) (.segment :: rest) limit]
      simp only [poll, henc]
    · intro newHeader henc
      rw [runChunker_poll (.buildingCluster cluster_head buffer) (.segment :: rest) limit]
      simp only [poll, henc]
      rw [runChunker_poll (.emittingClusterBodyBeforeNewHeader buffer newHeader) rest limit]
      simp only [poll]

/-- Witness for C6 at a concrete pending cluster and restart element. -/
theorem c6_restart_emits_pending_cluster_first_witness :
    runChunker (.buildingCluster ⟨true, 500, 533, 9⟩ 77) [.ebmlHead] none =
      (.ok (.clusterHead ⟨true, 500, 533, 9⟩) :: .ok (.clusterBody 77) ::
          (runChunker (.buildingHeader 31) [] none).1,
        (runChunker (.buildingHeader 31) [] none).2.1,
        (runChunker (.buildingHeader 31) [] none).2.2) :=
  (c6_restart_emits_pending_cluster_first ⟨true, 500, 533, 9⟩ 77 [] none .ebmlHead
    (Or.inl rfl)).2 31 (by decide)

/-- C8: whenever a pull surfaces an error, that error came from an encode
inside the chunker and is `ResourcesExceeded`, no chunk is emitted on that
pull (a pull returns either an error or a chunk, and the partially built
buffer is discarded with the state), the chunker transitions directly to the
`End` state, and from `End` every subsequent pull returns `Ready(None)`. -/
theorem c8_error_is_terminal : ∀ (input : List WebmElement) (st : ChunkerState)
    (limit : Option Nat) (err : WebmetroError) (st2 : ChunkerState)
    (rest : List WebmElement),
    poll st input limit = (.error err, st2, rest) →
    err = .resourcesExceeded ∧ st2 = .«end» ∧
      (∀ input2 limit2, poll st2 input2 limit2 = (.ok none, st2, input2)) := by
  intro input
  induction input with
  | nil =>
    intro st limit err st2 rest h
    cases st <;> simp only [poll, Prod.mk.injEq] at h <;> exact absurd h.1 (by simp)
  | cons e tail ih =>
    intro st limit err st2 rest h
    cases st with
    | buildingHeader buffer =>
      cases e <;> simp only [poll, Prod.mk.injEq] at h
      case cluster => exact absurd h.1 (by simp)
      case info | void | unknown => exact ih _ _ _ _ _ h
      case ebmlHead | segment | tracks | timecode | simpleBlock =>
        split at h
        · exact ih _ _ _ _ _ h
        · rename_i heq
          simp only [Prod.mk.injEq] at h
          obtain ⟨h1, rfl, rfl⟩ := h
          exact ⟨by cases err; rfl, rfl, fun i l => poll_end i l⟩
    | buildingCluster cluster_head buffer =>
      cases e <;> simp only [poll, Prod.mk.injEq] at h
      case cluster => exact absurd h.1 (by simp)
      case timecode | info | void | unknown => exact ih _ _ _ _ _ h
      case ebmlHead | segment =>
        split at h
        · simp at h
        · rename_i heq
          simp only [Prod.mk.injEq] at h
          obtain ⟨h1, rfl, rfl⟩ := h
          exact ⟨by cases err; rfl, rfl, fun i l => poll_end i l⟩
      case simpleBlock | tracks =>
        split at h
        · exact ih _ _ _ _ _ h
        · rename_i heq
          simp only [Prod.mk.injEq] at h
          obtain ⟨h1, rfl, rfl⟩ := h
          exact ⟨by cases err; rfl, rfl, fun i l => poll_end i l⟩
    | emittingClusterBody body =>
      simp only [poll, Prod.mk.injEq] at h
      exact absurd h.1 (by simp)
    | emittingClusterBodyBeforeNewHeader body newHeader =>
      simp only [poll, Prod.mk.injEq] at h
      exact absurd h.1 (by simp)
    | emittingFinalClusterBody body =>
      simp only [poll, Prod.mk.injEq] at h
      exact absurd h.1 (by simp)
    | «end» =>
      simp only [poll, Prod.mk.injEq] at h
      exact absurd h.1 (by simp)

/-- Witness for C8: a concrete limit breach (limit 0 in `BuildingHeader`)
surfaces the error, and the resulting terminal state answers `Ready(None)`
to a subsequent pull. -/
theorem c8_error_is_terminal_witness :
    poll ChunkerState.«end» [.cluster] none = (.ok none, .«end», [.cluster]) :=
  (c8_error_is_terminal [.tracks 5] (.buildingHeader 0) (some 0)
    .resourcesExceeded .«end» [] (by decide)).2.2 [.cluster] none

/-- C5 counterexample: an emitted `ClusterHead` can have `end < start`.  With
no soft limit, on input `Cluster, SimpleBlock{timecode=5}, Timecode(2^64-1),
end-of-stream`, the block sets `end = 5`, and `update_timecode(2^64-1)` then
computes `start = 2^64-1` and `end = (2^64-1) + 5` which wraps to `4` in
`u64` arithmetic; the flushed `ClusterHead` has `start = 2^64-1 > 4 = end`. -/
theorem c5_counterexample :
    okChunks (chunk_webm [.cluster, .simpleBlock ⟨0, 5, 10⟩,
      .timecode (2 ^ 64 - 1)] none).1 =
      [.headers 0, .clusterHead ⟨false, 2 ^ 64 - 1, 4, 15⟩, .clusterBody 10] ∧
    ¬ ((⟨false, 2 ^ 64 - 1, 4, 15⟩ : ClusterHead).start ≤
        (⟨false, 2 ^ 64 - 1, 4, 15⟩ : ClusterHead).«end») := by decide

/-- Inputs under which the `end ≥ start` invariant is provable: every
`Timecode` value leaves room for a cluster duration without `u64` overflow,
and every `SimpleBlock` delta is non-negative (a negative delta can wrap, see
the C4 counterexample). -/
def goodElement : WebmElement → Bool
  | .timecode t => decide (t < U64 - 2 ^ 15)
  | .simpleBlock b => decide (0 ≤ b.timecode ∧ b.timecode < 2 ^ 15)
  | _ => true

def goodInput (input : List WebmElement) : Bool := input.all goodElement

/-- Invariant carried by the head of the cluster being built. -/
def headInv (h : ClusterHead) : Prop :=
  h.start ≤ h.«end» ∧ h.«end» < h.start + 2 ^ 15 ∧ h.start < U64 - 2 ^ 15

def stHeadInv : ChunkerState → Prop
  | .buildingCluster h _ => headInv h
  | _ => True

/-- The spec's invariant 1 over a chunk sequence. -/
def headsOk (l : List Chunk) : Prop :=
  ∀ h, Chunk.clusterHead h ∈ l → h.start ≤ h.«end»

theorem headInv_new_zero : headInv (ClusterHead.new 0) :=
  ⟨by decide, by decide, by decide⟩

theorem headInv_update (h : ClusterHead) (t : Nat) (hinv : headInv h)
    (ht : t < U64 - 2 ^ 15) : headInv (h.update_timecode t) := by
  simp only [headInv, ClusterHead.update_timecode, U64] at hinv ht ⊢
  omega

theorem headInv_observe (h : ClusterHead) (tc : Int) (hinv : headInv h)
    (h0 : 0 ≤ tc) (h1 : tc < 2 ^ 15) :
    headInv (h.observe_simpleblock_timecode tc) := by
  simp only [headInv, ClusterHead.observe_simpleblock_timecode, i16ToU64, U64] at hinv ⊢
  split
  · simp only []
    omega
  · omega

theorem headsOk_nil : headsOk [] := by
  intro h hmem
  cases hmem

theorem headsOk_cons_ch (hh : ClusterHead) (l : List Chunk)
    (h1 : hh.start ≤ hh.«end») (h2 : headsOk l) :
    headsOk (.clusterHead hh :: l) := by
  intro g hg
  rcases List.mem_cons.mp hg with heq | hmem
  · cases Chunk.clusterHead.inj heq
    exact h1
  · exact h2 g hmem

theorem headsOk_cons_headers (b : Nat) (l : List Chunk) (h2 : headsOk l) :
    headsOk (.headers b :: l) := by
  intro g hg
  rcases List.mem_cons.mp hg with heq | hmem
  · cases heq
  · exact h2 g hmem

theorem headsOk_cons_body (b : Nat) (l : List Chunk) (h2 : headsOk l) :
    headsOk (.clusterBody b :: l) := by
  intro g hg
  rcases List.mem_cons.mp hg with heq | hmem
  · cases heq
  · exact h2 g hmem

/-- Invariant: under `goodInput`, every `ClusterHead` a complete run emits
(from a state whose pending head satisfies `headInv`) has `end ≥ start`. -/
theorem c5_aux : ∀ (n : Nat) (st : ChunkerState) (input : List WebmElement)
    (limit : Option Nat) (fuel : Nat), chunkerMeasure st input ≤ n →
    chunkerMeasure st input < fuel → goodInput input = true → stHeadInv st →
    headsOk (okChunks (runFuel fuel st input limit).1) := by
  intro n
  induction n with
  | zero =>
    intro st input limit fuel hn hf hg hst
    obtain ⟨g, rfl⟩ : ∃ g, fuel = g + 1 := ⟨fuel - 1, by omega⟩
    have hrank : stateRank st = 0 ∧ input.length = 0 := by
      simp only [chunkerMeasure] at hn
      omega
    have hinput : input = [] := List.length_eq_zero.mp hrank.2
    subst hinput
    have hr := hrank.1
    cases st <;> simp [stateRank] at hr
    rw [runFuel_none _ _ _ _ _ _ (poll_end [] limit)]
    exact headsOk_nil
  | succ n ih =>
    intro st input limit fuel hn hf hg hst
    obtain ⟨g, rfl⟩ : ∃ g, fuel = g + 1 := ⟨fuel - 1, by omega⟩
    cases st with
    | «end» =>
      rw [runFuel_none _ _ _ _ _ _ (poll_end input limit)]
      exact headsOk_nil
    | emittingFinalClusterBody body =>
      have hp : poll (ChunkerState.emittingFinalClusterBody body) input limit =
          (.ok (some (.clusterBody body)), .«end», input) := by
        simp [poll]
      rw [runFuel_emit _ _ _ _ _ _ _ hp, okChunks_ok]
      exact headsOk_cons_body _ _ (ih ChunkerState.«end» input limit g
        (by simp only [chunkerMeasure, stateRank] at hn hf ⊢; omega)
        (by simp only [chunkerMeasure, stateRank] at hn hf ⊢; omega) hg trivial)
    | emittingClusterBody body =>
      have hp : poll (ChunkerState.emittingClusterBody body) input limit =
          (.ok (some (.clusterBody body)), .buildingCluster (ClusterHead.new 0) 0, input) := by
        simp [poll]
      rw [runFuel_emit _ _ _ _ _ _ _ hp, okChunks_ok]
      exact headsOk_cons_body _ _ (ih (.buildingCluster (ClusterHead.new 0) 0) input limit g
        (by simp only [chunkerMeasure, stateRank] at hn hf ⊢; omega)
        (by simp only [chunkerMeasure, stateRank] at hn hf ⊢; omega) hg headInv_new_zero)
    | emittingClusterBodyBeforeNewHeader body newHeader =>
      have hp : poll (ChunkerState.emittingClusterBodyBeforeNewHeader body newHeader)
          input limit =
          (.ok (some (.clusterBody body)), .buildingHeader newHeader, input) := by
        simp [poll]
      rw [runFuel_emit _ _ _ _ _ _ _ hp, okChunks_ok]
      exact headsOk_cons_body _ _ (ih (.buildingHeader newHeader) input limit g
        (by simp only [chunkerMeasure, stateRank] at hn hf ⊢; omega)
        (by simp only [chunkerMeasure, stateRank] at hn hf ⊢; omega) hg trivial)
    | buildingHeader buffer =>
      cases input with
      | nil =>
        have hp : poll (ChunkerState.buildingHeader buffer) [] limit =
            (.ok none, .buildingHeader buffer, []) := by
          simp [poll]
        rw [runFuel_none _ _ _ _ _ _ hp]
        exact headsOk_nil
      | cons e tail =>
        have hgt : goodInput tail = true := by
          simp only [goodInput, List.all_cons, Bool.and_eq_true] at hg
          exact hg.2
        cases e with
        | cluster =>
          have hp : poll (ChunkerState.buildingHeader buffer) (.cluster :: tail) limit =
              (.ok (some (.headers buffer)), .buildingCluster (ClusterHead.new 0) 0, tail) := by
            simp [poll]
          rw [runFuel_emit _ _ _ _ _ _ _ hp, okChunks_ok]
          exact headsOk_cons_headers _ _ (ih (.buildingCluster (ClusterHead.new 0) 0) tail limit g
            (by simp only [chunkerMeasure, stateRank, List.length_cons] at hn hf ⊢; omega)
            (by simp only [chunkerMeasure, stateRank, List.length_cons] at hn hf ⊢; omega)
            hgt headInv_new_zero)
        | info =>
          rw [runFuel_skip g _ _ (.buildingHeader buffer) tail limit (by simp [poll])]
          exact ih (.buildingHeader buffer) tail limit (g + 1)
            (by simp only [chunkerMeasure, stateRank, List.length_cons] at hn hf ⊢; omega)
            (by simp only [chunkerMeasure, stateRank, List.length_cons] at hn hf ⊢; omega)
            hgt trivial
        | void =>
          rw [runFuel_skip g _ _ (.buildingHeader buffer) tail limit (by simp [poll])]
          exact ih (.buildingHeader buffer) tail limit (g + 1)
            (by simp only [chunkerMeasure, stateRank, List.length_cons] at hn hf ⊢; omega)
            (by simp only [chunkerMeasure, stateRank, List.length_cons] at hn hf ⊢; omega)
            hgt trivial
        | unknown id =>
          rw [runFuel_skip g _ _ (.buildingHeader buffer) tail limit (by simp [poll])]
          exact ih (.buildingHeader buffer) tail limit (g + 1)
            (by simp only [chunkerMeasure, stateRank, List.length_cons] at hn hf ⊢; omega)
            (by simp only [chunkerMeasure, stateRank, List.length_cons] at hn hf ⊢; omega)
            hgt trivial
        | ebmlHead =>
          rcases henc : encode .ebmlHead buffer limit with err | buffer2
          · have hp : poll (ChunkerState.buildingHeader buffer) (.ebmlHead :: tail) limit =
                (.error err, .«end», tail) := by
              simp [poll, henc]
            rw [runFuel_err _ _ _ _ _ _ _ hp, okChunks_err]
            exact headsOk_nil
          · rw [runFuel_skip g _ _ (.buildingHeader buffer2) tail limit (by simp [poll, henc])]
            exact ih (.buildingHeader buffer2) tail limit (g + 1)
              (by simp only [chunkerMeasure, stateRank, List.length_cons] at hn hf ⊢; omega)
              (by simp only [chunkerMeasure, stateRank, List.length_cons] at hn hf ⊢; omega)
              hgt trivial
        | segment =>
          rcases henc : encode .segment buffer limit with err | buffer2
          · have hp : poll (ChunkerState.buildingHeader buffer) (.segment :: tail) limit =
                (.error err, .«end», tail) := by
              simp [poll, henc]
            rw [runFuel_err _ _ _ _ _ _ _ hp, okChunks_err]
            exact headsOk_nil
          · rw [runFuel_skip g _ _ (.buildingHeader buffer2) tail limit (by simp [poll, henc])]
            exact ih (.buildingHeader buffer2) tail limit (g + 1)
              (by simp only [chunkerMeasure, stateRank, List.length_cons] at hn hf ⊢; omega)
              (by simp only [chunkerMeasure, stateRank, List.length_cons] at hn hf ⊢; omega)
              hgt trivial
        | tracks sz =>
          rcases henc : encode (.tracks sz) buffer limit with err | buffer2
          · have hp : poll (ChunkerState.buildingHeader buffer) (.tracks sz :: tail) limit =
                (.error err, .«end», tail) := by
              simp [poll, henc]
            rw [runFuel_err _ _ _ _ _ _ _ hp, okChunks_err]
            exact headsOk_nil
          · rw [runFuel_skip g _ _ (.buildingHeader buffer2) tail limit (by simp [poll, henc])]
            exact ih (.buildingHeader buffer2) tail limit (g + 1)
              (by simp only [chunkerMeasure, stateRank, List.length_cons] at hn hf ⊢; omega)
              (by simp only [chunkerMeasure, stateRank, List.length_cons] at hn hf ⊢; omega)
              hgt trivial
        | timecode t =>
          rcases henc : encode (.timecode t) buffer limit with err | buffer2
          · have hp : poll (ChunkerState.buildingHeader buffer) (.timecode t :: tail) limit =
                (.error err, .«end», tail) := by
              simp [poll, henc]
            rw [runFuel_err _ _ _ _ _ _ _ hp, okChunks_err]
            exact headsOk_nil
          · rw [runFuel_skip g _ _ (.buildingHeader buffer2) tail limit (by simp [poll, henc])]
            exact ih (.buildingHeader buffer2) tail limit (g + 1)
              (by simp only [chunkerMeasure, stateRank, List.length_cons] at hn hf ⊢; omega)
              (by simp only [chunkerMeasure, stateRank, List.length_cons] at hn hf ⊢; omega)
              hgt trivial
        | simpleBlock b =>
          rcases henc : encode (.simpleBlock b) buffer limit with err | buffer2
          · have hp : poll (ChunkerState.buildingHeader buffer) (.simpleBlock b :: tail) limit =
                (.error err, .«end», tail) := by
              simp [poll, henc]
            rw [runFuel_err _ _ _ _ _ _ _ hp, okChunks_err]
            exact headsOk_nil
          · rw [runFuel_skip g _ _ (.buildingHeader buffer2) tail limit (by simp [poll, henc])]
            exact ih (.buildingHeader buffer2) tail limit (g + 1)
              (by simp only [chunkerMeasure, stateRank, List.length_cons] at hn hf ⊢; omega)
              (by simp only [chunkerMeasure, stateRank, List.length_cons] at hn hf ⊢; omega)
              hgt trivial
    | buildingCluster cluster_head buffer =>
      have hinv : headInv cluster_head := hst
      cases input with
      | nil =>
        have hp : poll (ChunkerState.buildingCluster cluster_head buffer) [] limit =
            (.ok (some (.clusterHead cluster_head)), .emittingFinalClusterBody buffer, []) := by
          simp [poll]
        rw [runFuel_emit _ _ _ _ _ _ _ hp, okChunks_ok]
        exact headsOk_cons_ch _ _ hinv.1 (ih (.emittingFinalClusterBody buffer) [] limit g
          (by simp only [chunkerMeasure, stateRank, List.length_nil] at hn hf ⊢; omega)
          (by simp only [chunkerMeasure, stateRank, List.length_nil] at hn hf ⊢; omega)
          hg trivial)
      | cons e tail =>
        have hgt : goodInput tail = true := by
          simp only [goodInput, List.all_cons, Bool.and_eq_true] at hg
          exact hg.2
        cases e with
        | cluster =>
          have hp : poll (ChunkerState.buildingCluster cluster_head buffer)
              (.cluster :: tail) limit =
              (.ok (some (.clusterHead cluster_head)), .emittingClusterBody buffer, tail) := by
            simp [poll]
          rw [runFuel_emit _ _ _ _ _ _ _ hp, okChunks_ok]
          exact headsOk_cons_ch _ _ hinv.1 (ih (.emittingClusterBody buffer) tail limit g
            (by simp only [chunkerMeasure, stateRank, List.length_cons] at hn hf ⊢; omega)
            (by simp only [chunkerMeasure, stateRank, List.length_cons] at hn hf ⊢; omega)
            hgt trivial)
        | ebmlHead =>
          rcases henc : encode .ebmlHead 0 limit with err | newHeader
          · have hp : poll (ChunkerState.buildingCluster cluster_head buffer)
                (.ebmlHead :: tail) limit = (.error err, .«end», tail) := by
              simp [poll, henc]
            rw [runFuel_err _ _ _ _ _ _ _ hp, okChunks_err]
            exact headsOk_nil
          · have hp : poll (ChunkerState.buildingCluster cluster_head buffer)
                (.ebmlHead :: tail) limit =
                (.ok (some (.clusterHead cluster_head)),
                  .emittingClusterBodyBeforeNewHeader buffer newHeader, tail) := by
              simp [poll, henc]
            rw [runFuel_emit _ _ _ _ _ _ _ hp, okChunks_ok]
            exact headsOk_cons_ch _ _ hinv.1
              (ih (.emittingClusterBodyBeforeNewHeader buffer newHeader) tail limit g
                (by simp only [chunkerMeasure, stateRank, List.length_cons] at hn hf ⊢; omega)
                (by simp only [chunkerMeasure, stateRank, List.length_cons] at hn hf ⊢; omega)
                hgt trivial)
        | segment =>
          rcases henc : encode .segment 0 limit with err | newHeader
          · have hp : poll (ChunkerState.buildingCluster cluster_head buffer)
                (.segment :: tail) limit = (.error err, .«end», tail) := by
              simp [poll, henc]
            rw [runFuel_err _ _ _ _ _ _ _ hp, okChunks_err]
            exact headsOk_nil
          · have hp : poll (ChunkerState.buildingCluster cluster_head buffer)
                (.segment :: tail) limit =
                (.ok (some (.clusterHead cluster_head)),
                  .emittingClusterBodyBeforeNewHeader buffer newHeader, tail) := by
              simp [poll, henc]
            rw [runFuel_emit _ _ _ _ _ _ _ hp, okChunks_ok]
            exact headsOk_cons_ch _ _ hinv.1
              (ih (.emittingClusterBodyBeforeNewHeader buffer newHeader) tail limit g
                (by simp only [chunkerMeasure, stateRank, List.length_cons] at hn hf ⊢; omega)
                (by simp only [chunkerMeasure, stateRank, List.length_cons] at hn hf ⊢; omega)
                hgt trivial)
        | timecode t =>
          have htgood : t < U64 - 2 ^ 15 := by
            simp only [goodInput, List.all_cons, Bool.and_eq_true, goodElement,
              decide_eq_true_eq] at hg
            exact hg.1
          rw [runFuel_skip g _ _
            (.buildingCluster (cluster_head.update_timecode t) buffer) tail limit
            (by simp [poll])]
          exact ih (.buildingCluster (cluster_head.update_timecode t) buffer) tail limit (g + 1)
            (by simp only [chunkerMeasure, stateRank, List.length_cons] at hn hf ⊢; omega)
            (by simp only [chunkerMeasure, stateRank, List.length_cons] at hn hf ⊢; omega)
            hgt (headInv_update cluster_head t hinv htgood)
        | simpleBlock b =>
          have hbgood : 0 ≤ b.timecode ∧ b.timecode < 2 ^ 15 := by
            simp only [goodInput, List.all_cons, Bool.and_eq_true, goodElement,
              decide_eq_true_eq] at hg
            exact hg.1
          have hinv2 : headInv ((if b.flags &&& 128 ≠ 0 then
              { cluster_head with keyframe := true }
              else cluster_head).observe_simpleblock_timecode b.timecode) := by
            apply headInv_observe _ _ _ hbgood.1 hbgood.2
            split
            · exact hinv
            · exact hinv
          rcases henc : encode (.simpleBlock b) buffer limit with err | buffer2
          · have hp : poll (ChunkerState.buildingCluster cluster_head buffer)
                (.simpleBlock b :: tail) limit = (.error err, .«end», tail) := by
              simp [poll, henc]
            rw [runFuel_err _ _ _ _ _ _ _ hp, okChunks_err]
            exact headsOk_nil
          · rw [runFuel_skip g _ _
              (.buildingCluster
                ((if b.flags &&& 128 ≠ 0 then { cluster_head with keyframe := true }
                  else cluster_head).observe_simpleblock_timecode b.timecode) buffer2)
              tail limit (by simp [poll, henc])]
            exact ih (.buildingCluster
                ((if b.flags &&& 128 ≠ 0 then { cluster_head with keyframe := true }
                  else cluster_head).observe_simpleblock_timecode b.timecode) buffer2)
              tail limit (g + 1)
              (by simp only [chunkerMeasure, stateRank, List.length_cons] at hn hf ⊢; omega)
              (by simp only [chunkerMeasure, stateRank, List.length_cons] at hn hf ⊢; omega)
              hgt hinv2
        | info =>
          rw [runFuel_skip g _ _ (.buildingCluster cluster_head buffer) tail limit
            (by simp [poll])]
          exact ih (.buildingCluster cluster_head buffer) tail limit (g + 1)
            (by simp only [chunkerMeasure, stateRank, List.length_cons] at hn hf ⊢; omega)
            (by simp only [chunkerMeasure, stateRank, List.length_cons] at hn hf ⊢; omega)
            hgt hinv
        | void =>
          rw [runFuel_skip g _ _ (.buildingCluster cluster_head buffer) tail limit
            (by simp [poll])]
          exact ih (.buildingCluster cluster_head buffer) tail limit (g + 1)
            (by simp only [chunkerMeasure, stateRank, List.length_cons] at hn hf ⊢; omega)
            (by simp only [chunkerMeasure, stateRank, List.length_cons] at hn hf ⊢; omega)
            hgt hinv
        | unknown id =>
          rw [runFuel_skip g _ _ (.buildingCluster cluster_head buffer) tail limit
            (by simp [poll])]
          exact ih (.buildingCluster cluster_head buffer) tail limit (g + 1)
            (by simp only [chunkerMeasure, stateRank, List.length_cons] at hn hf ⊢; omega)
            (by simp only [chunkerMeasure, stateRank, List.length_cons] at hn hf ⊢; omega)
            hgt hinv
        | tracks sz =>
          rcases henc : encode (.tracks sz) buffer limit with err | buffer2
          · have hp : poll (ChunkerState.buildingCluster cluster_head buffer)
                (.tracks sz :: tail) limit = (.error err, .«end», tail) := by
              simp [poll, henc]
            rw [runFuel_err _ _ _ _ _ _ _ hp, okChunks_err]
            exact headsOk_nil
          · rw [runFuel_skip g _ _ (.buildingCluster cluster_head buffer2) tail limit
              (by simp [poll, henc])]
            exact ih (.buildingCluster cluster_head buffer2) tail limit (g + 1)
              (by simp only [chunkerMeasure, stateRank, List.length_cons] at hn hf ⊢; omega)
              (by simp only [chunkerMeasure, stateRank, List.length_cons] at hn hf ⊢; omega)
              hgt hinv

/-- C5 amended: `end ≥ start` is preserved unconditionally by construction
(`ClusterHead::new`) and by `observe_simpleblock_timecode`, and by
`update_timecode t` whenever the new `end` (`t + (end - start)`) does not
overflow `u64`; consequently every `ClusterHead` the chunker emits satisfies
`end ≥ start` provided every input `Timecode` value is below `2^64 - 2^15`
and every `SimpleBlock` timecode delta is non-negative.  (Without those
bounds the wrapping `u64` arithmetic can produce `end < start` — see the
counterexample.) -/
theorem c5_cluster_head_end_ge_start :
    (∀ t : Nat, (ClusterHead.new t).start ≤ (ClusterHead.new t).«end») ∧
    (∀ (h : ClusterHead) (tc : Int), h.start ≤ h.«end» →
      (h.observe_simpleblock_timecode tc).start ≤
        (h.observe_simpleblock_timecode tc).«end») ∧
    (∀ (h : ClusterHead) (t : Nat), h.start ≤ h.«end» → h.«end» < U64 →
      t % U64 + (h.«end» - h.start) < U64 →
      (h.update_timecode t).start ≤ (h.update_timecode t).«end») ∧
    (∀ input limit, goodInput input = true →
      headsOk (okChunks (chunk_webm input limit).1)) := by
  refine ⟨?_, ?_, ?_, ?_⟩
  · intro t
    simp only [ClusterHead.new, ClusterHead.update_timecode, U64]
    omega
  · intro h tc hse
    simp only [ClusterHead.observe_simpleblock_timecode] at *
    split
    · rename_i hcond
      simp only []
      omega
    · exact hse
  · intro h t hse hend hnof
    simp only [ClusterHead.update_timecode, U64] at *
    omega
  · intro input limit hgood
    unfold chunk_webm runChunker
    exact c5_aux (chunkerMeasure (.buildingHeader 0) input) (.buildingHeader 0) input limit
      (chunkerMeasure (.buildingHeader 0) input + 1) (le_refl _) (Nat.lt_succ_self _)
      hgood trivial

/-- Witness for C5 amended: the emitted-head part applied at a concrete
well-behaved input. -/
theorem c5_cluster_head_end_ge_start_witness :
    (⟨false, 1000, 1000, 9⟩ : ClusterHead).start ≤
      (⟨false, 1000, 1000, 9⟩ : ClusterHead).«end» :=
  c5_cluster_head_end_ge_start.2.2.2 [.cluster, .timecode 1000] none (by decide)
    ⟨false, 1000, 1000, 9⟩ (by decide)

end Webmetro
